import Mathlib

/-!
Verification of the VoiceBrowserAI task-execution and storage core.

This file shallowly embeds the in-memory storage layer
(`src/server/storage.ts`, class `MemStorage`), the task-execution
routes and background stepping routine (`registerRoutes` /
`executeTaskInBackground`), the AI processor's fallback behaviour
(`AIProcessor.processVoiceCommand` / `processChatMessage`), and the
WordPress plugin's capped action log
(`T2E_Agent::log_automation_action`), and proves the spec's testable
properties about them.

JavaScript `Map`s are embedded as association lists in insertion
order (`Map.set` replaces in place or appends; `Map.values()` yields
insertion order).  Timestamps (`new Date()` / `Date.now()`) and
generated identifiers (`randomUUID()`) are passed in explicitly.
Integer arithmetic is embedded exactly over `Nat`; the progress
computation `Math.round(((i + 1) / totalSteps) * 100)` runs on IEEE
binary64 doubles and is embedded as exact significand/exponent
rounding (round-to-nearest, ties-to-even) with the ECMAScript
`Math.round` on the resulting double's exact value (`jsStepProgress`),
with a rational-level twin (`roundDouble`) used in proofs.
-/

/-! ## Data model (from `src/shared/schema.ts`) -/

/-- Execution status enumeration: `'running' | 'completed' | 'failed' | 'cancelled'`. -/
inductive ExecStatus where
  | running
  | completed
  | failed
  | cancelled
  deriving DecidableEq, Repr

/-- One automation step of a task template: `{ type, description }`. -/
structure TaskStep where
  type : String
  description : Option String
  deriving DecidableEq, Repr

/-- A task template record.  `steps` is a JSON value that may or may not be
an array; `none` embeds a non-array value (the code guards with
`Array.isArray`).  `variables` is an opaque JSON blob. -/
structure TaskTemplate where
  id : String
  userId : String
  name : String
  description : String
  category : String
  steps : Option (List TaskStep)
  templateVariables : String
  isPublic : Bool
  createdAt : Nat
  deriving DecidableEq, Repr

/-- Result payload attached to an execution
(`{ success, message }` / `{ success, error }`). -/
structure TaskResult where
  success : Bool
  message : Option String
  error : Option String
  deriving DecidableEq, Repr

/-- A task execution record. -/
structure TaskExecution where
  id : String
  templateId : String
  userId : String
  status : ExecStatus
  progress : Nat
  logs : List String
  result : Option TaskResult
  startedAt : Nat
  completedAt : Option Nat
  deriving DecidableEq, Repr

/-- A browser profile record (`sessionData` kept opaque). -/
structure BrowserProfile where
  id : String
  userId : Option String
  name : String
  sessionData : String
  isDefault : Bool
  createdAt : Nat
  deriving DecidableEq, Repr

/-- An action-log record of the primary application. -/
structure ActionLog where
  id : String
  userId : Option String
  action : String
  details : String
  url : Option String
  timestamp : Nat
  deriving DecidableEq, Repr

/-! ## Association-list embedding of JavaScript `Map` -/

/-- `Map.get`: first binding of the key, if any. -/
def mapLookup {α : Type} : List (String × α) → String → Option α
  | [], _ => none
  | (k, v) :: rest, key => if k = key then some v else mapLookup rest key

/-- `Map.has`. -/
def mapContains {α : Type} (m : List (String × α)) (k : String) : Bool :=
  (mapLookup m k).isSome

/-- Replace every binding of `key` in place (keys are unique in practice). -/
def mapReplace {α : Type} : List (String × α) → String → α → List (String × α)
  | [], _, _ => []
  | (k, v) :: rest, key, val =>
      (if k = key then (key, val) else (k, v)) :: mapReplace rest key val

/-- `Map.set`: replace in place when the key is present, otherwise append,
preserving JavaScript `Map` insertion order. -/
def mapSet {α : Type} (m : List (String × α)) (k : String) (v : α) : List (String × α) :=
  if mapContains m k then mapReplace m k v else m ++ [(k, v)]

/-- `Array.from(map.values())`: values in insertion order. -/
def mapValues {α : Type} (m : List (String × α)) : List α :=
  m.map Prod.snd

/-! ## The in-memory store (`MemStorage`) -/

/-- The tables of `MemStorage` relevant to the verified claims. -/
structure MemStorage where
  browserProfiles : List (String × BrowserProfile)
  taskTemplates : List (String × TaskTemplate)
  taskExecutions : List (String × TaskExecution)
  actionLogs : List (String × ActionLog)
  deriving DecidableEq, Repr

/-- The `"Bulk WordPress Posts"` template seeded by `initializeDefaultData`. -/
def wordpressTemplate : TaskTemplate :=
  { id := "wordpress-template"
    userId := "default-user"
    name := "Bulk WordPress Posts"
    description := "Create multiple posts from CSV data"
    category := "wordpress"
    steps := some
      [ { type := "upload_csv", description := some "Upload CSV file with post data" }
      , { type := "generate_content", description := some "Generate content using AI" }
      , { type := "create_posts", description := some "Create WordPress posts" } ]
    templateVariables := "csv_file, post_status"
    isPublic := false
    createdAt := 0 }

/-- The `"Data Extraction"` template seeded by `initializeDefaultData`. -/
def scrapingTemplate : TaskTemplate :=
  { id := "scraping-template"
    userId := "default-user"
    name := "Data Extraction"
    description := "Scrape product information to CSV"
    category := "scraping"
    steps := some
      [ { type := "navigate_to_page", description := some "Navigate to target page" }
      , { type := "extract_data", description := some "Extract specified data" }
      , { type := "export_csv", description := some "Export data to CSV" } ]
    templateVariables := "target_url, selectors"
    isPublic := false
    createdAt := 0 }

/-- The default browser profile seeded by `initializeDefaultData`. -/
def defaultProfile : BrowserProfile :=
  { id := "default-profile"
    userId := some "default-user"
    name := "Default Profile"
    sessionData := ""
    isDefault := true
    createdAt := 0 }

/-- The storage state produced by the `MemStorage` constructor
(`initializeDefaultData`): default user data, two task templates,
no executions, no action logs. -/
def defaultStorage : MemStorage :=
  { browserProfiles := [("default-profile", defaultProfile)]
    taskTemplates :=
      [ ("wordpress-template", wordpressTemplate)
      , ("scraping-template", scrapingTemplate) ]
    taskExecutions := []
    actionLogs := [] }

/-- `DEFAULT_USER_ID` from `registerRoutes`. -/
def DEFAULT_USER_ID : String := "default-user"

/-! ## Storage operations (from `src/server/storage.ts`) -/

/-- Fields accepted by `createTaskExecution` (the insert schema omits
`id`, `startedAt`, `completedAt`). -/
structure InsertTaskExecution where
  templateId : String
  userId : String
  status : ExecStatus
  progress : Nat
  logs : List String
  result : Option TaskResult
  deriving DecidableEq, Repr

/-- `MemStorage.createTaskExecution`: spread the insert payload, attach a
fresh id, stamp `startedAt`, set `completedAt` to null, and store. -/
def createTaskExecution (s : MemStorage) (ins : InsertTaskExecution)
    (id : String) (now : Nat) : TaskExecution × MemStorage :=
  let e : TaskExecution :=
    { id := id
      templateId := ins.templateId
      userId := ins.userId
      status := ins.status
      progress := ins.progress
      logs := ins.logs
      result := ins.result
      startedAt := now
      completedAt := none }
  (e, { s with taskExecutions := mapSet s.taskExecutions id e })

/-- `Partial<TaskExecution>`: every field optional; an absent field leaves
the record's field unchanged under object spread. -/
structure TaskExecutionUpdate where
  id : Option String := none
  templateId : Option String := none
  userId : Option String := none
  status : Option ExecStatus := none
  progress : Option Nat := none
  logs : Option (List String) := none
  result : Option (Option TaskResult) := none
  startedAt : Option Nat := none
  completedAt : Option (Option Nat) := none
  deriving DecidableEq, Repr

/-- The object spread `{ ...execution, ...updates }`. -/
def applyExecUpdate (e : TaskExecution) (u : TaskExecutionUpdate) : TaskExecution :=
  { id := u.id.getD e.id
    templateId := u.templateId.getD e.templateId
    userId := u.userId.getD e.userId
    status := u.status.getD e.status
    progress := u.progress.getD e.progress
    logs := u.logs.getD e.logs
    result := u.result.getD e.result
    startedAt := u.startedAt.getD e.startedAt
    completedAt := u.completedAt.getD e.completedAt }

/-- The record produced by `updateTaskExecution` for a found record:
the merged record, with `completedAt` stamped when the update sets
status to completed or failed
(`if (updates.status === 'completed' || updates.status === 'failed')`). -/
def execMerge (e : TaskExecution) (u : TaskExecutionUpdate) (now : Nat) : TaskExecution :=
  let e1 := applyExecUpdate e u
  if u.status = some ExecStatus.completed ∨ u.status = some ExecStatus.failed then
    { e1 with completedAt := some now }
  else e1

/-- `MemStorage.updateTaskExecution`: absent result on a missing id;
otherwise merge the partial update, stamp `completedAt` when the update
sets status to completed or failed, and store the merged record. -/
def updateTaskExecution (s : MemStorage) (id : String)
    (u : TaskExecutionUpdate) (now : Nat) : Option TaskExecution × MemStorage :=
  match mapLookup s.taskExecutions id with
  | none => (none, s)
  | some e =>
      let e2 := execMerge e u now
      (some e2, { s with taskExecutions := mapSet s.taskExecutions id e2 })

/-- `Partial<BrowserProfile>`. -/
structure BrowserProfileUpdate where
  id : Option String := none
  userId : Option (Option String) := none
  name : Option String := none
  sessionData : Option String := none
  isDefault : Option Bool := none
  createdAt : Option Nat := none
  deriving DecidableEq, Repr

/-- The object spread `{ ...profile, ...updates }`. -/
def applyProfileUpdate (p : BrowserProfile) (u : BrowserProfileUpdate) : BrowserProfile :=
  { id := u.id.getD p.id
    userId := u.userId.getD p.userId
    name := u.name.getD p.name
    sessionData := u.sessionData.getD p.sessionData
    isDefault := u.isDefault.getD p.isDefault
    createdAt := u.createdAt.getD p.createdAt }

/-- `MemStorage.updateBrowserProfile`: absent result on a missing id;
otherwise merge and store. -/
def updateBrowserProfile (s : MemStorage) (id : String)
    (u : BrowserProfileUpdate) : Option BrowserProfile × MemStorage :=
  match mapLookup s.browserProfiles id with
  | none => (none, s)
  | some p =>
      let p1 := applyProfileUpdate p u
      (some p1, { s with browserProfiles := mapSet s.browserProfiles id p1 })

/-- `MemStorage.getTaskTemplate`. -/
def getTaskTemplate (s : MemStorage) (id : String) : Option TaskTemplate :=
  mapLookup s.taskTemplates id

/-- Fields accepted by `addActionLog` (the insert schema omits `id` and
`timestamp`). -/
structure InsertActionLog where
  userId : Option String
  action : String
  details : String
  url : Option String
  deriving DecidableEq, Repr

/-- `MemStorage.addActionLog`: attach a fresh id, stamp `timestamp`, store. -/
def addActionLog (s : MemStorage) (ins : InsertActionLog)
    (id : String) (now : Nat) : ActionLog × MemStorage :=
  let log : ActionLog :=
    { id := id
      userId := ins.userId
      action := ins.action
      details := ins.details
      url := ins.url
      timestamp := now }
  (log, { s with actionLogs := mapSet s.actionLogs id log })

/-- Stable insertion into a descending-by-key list: the new element goes
after every element whose key is greater than or equal to its own, which
is how a stable sort with comparator `(a, b) => key b - key a` places it. -/
def insertDescBy {α : Type} (key : α → Nat) (x : α) : List α → List α
  | [] => [x]
  | y :: ys => if key x ≤ key y then y :: insertDescBy key x ys else x :: y :: ys

/-- Stable descending sort by a numeric key, embedding
`Array.prototype.sort` (stable per the ECMAScript specification) with
comparator `(a, b) => key b - key a`. -/
def sortDescBy {α : Type} (key : α → Nat) (l : List α) : List α :=
  l.foldl (fun acc x => insertDescBy key x acc) []

/-- The user's action-log entries in insertion (append) order:
`Array.from(this.actionLogs.values()).filter(log => log.userId === userId)`. -/
def userLogsInOrder (s : MemStorage) (userId : String) : List ActionLog :=
  (mapValues s.actionLogs).filter (fun l => decide (l.userId = some userId))

/-- `MemStorage.getActionLogs`: values filtered by user, sorted by
descending timestamp, truncated to `limit` (route default 100). -/
def getActionLogs (s : MemStorage) (userId : String) (limit : Nat) : List ActionLog :=
  (sortDescBy (fun l => l.timestamp) (userLogsInOrder s userId)).take limit

/-- `MemStorage.getTaskExecutions`: values filtered by user, sorted by
descending `startedAt`. -/
def getTaskExecutions (s : MemStorage) (userId : String) : List TaskExecution :=
  sortDescBy (fun e => e.startedAt)
    ((mapValues s.taskExecutions).filter (fun e => decide (e.userId = userId)))

/-! ## Background task execution (from `registerRoutes` / `executeTaskInBackground`) -/

/-- The exact-rational rounding `round(i * 100 / n)` that the spec text
asserts for the per-step progress values (half away from zero, i.e.
`⌊num / den + 1 / 2⌋`).  This follows the spec's words, not the source:
the source computes in IEEE binary64 doubles (see `jsStepProgress`
below), and the two disagree, e.g. at step 23 of a 40-step template. -/
def specRoundHalfUp (num den : Nat) : Nat :=
  (2 * num + den) / (2 * den)

/-- Fuel-bounded ⌊log₂ n⌋ by repeated halving (structural recursion so
the kernel can evaluate it; correct whenever n < 2^fuel). -/
def natLog2F : ℕ → ℕ → ℕ
  | 0, _ => 0
  | fuel + 1, n => if 2 ≤ n then natLog2F fuel (n / 2) + 1 else 0

/-- ⌊log₂ n⌋ for 1 ≤ n < 2^128; every quantity in the progress
computation is far below that bound. -/
def natLog2 (n : ℕ) : ℕ := natLog2F 128 n

/-- Decides 2^g ≤ a/b for naturals a, b ≥ 1 in natural arithmetic. -/
def pow2LeFrac (g : ℤ) (a b : ℕ) : Bool :=
  if 0 ≤ g then decide (2 ^ g.toNat * b ≤ a) else decide (b ≤ 2 ^ (-g).toNat * a)

/-- ⌊log₂ (a/b)⌋ for 1 ≤ a, b < 2^128. -/
def fracFloorLog2 (a b : ℕ) : ℤ :=
  if pow2LeFrac ((natLog2 a : ℤ) - (natLog2 b : ℤ)) a b
  then (natLog2 a : ℤ) - (natLog2 b : ℤ)
  else (natLog2 a : ℤ) - (natLog2 b : ℤ) - 1

/-- Round a/b (b ≥ 1) to the nearest integer, ties to even (the IEEE 754
default rounding), in natural arithmetic. -/
def rneNat (a b : ℕ) : ℕ :=
  if 2 * (a % b) < b then a / b
  else if b < 2 * (a % b) then a / b + 1
  else if (a / b) % 2 = 0 then a / b else a / b + 1

lemma natLog2F_spec : ∀ (fuel n : ℕ), 1 ≤ n → n < 2 ^ fuel →
    2 ^ natLog2F fuel n ≤ n ∧ n < 2 ^ (natLog2F fuel n + 1) := by
  intro fuel
  induction fuel with
  | zero => intro n h1 h2; omega
  | succ fuel ih =>
      intro n h1 h2
      by_cases h : 2 ≤ n
      · have hrec := ih (n / 2) (by omega) (by omega)
        simp only [natLog2F, if_pos h]
        constructor
        · calc 2 ^ (natLog2F fuel (n / 2) + 1) = 2 * 2 ^ natLog2F fuel (n / 2) := by ring
            _ ≤ 2 * (n / 2) := by omega
            _ ≤ n := by omega
        · calc n < 2 * (n / 2) + 2 := by omega
            _ ≤ 2 * 2 ^ (natLog2F fuel (n / 2) + 1) := by omega
            _ = 2 ^ (natLog2F fuel (n / 2) + 1 + 1) := by ring
      · simp only [natLog2F, if_neg h]
        omega

lemma natLog2_spec {n : ℕ} (h1 : 1 ≤ n) (h2 : n < 2 ^ 128) :
    2 ^ natLog2 n ≤ n ∧ n < 2 ^ (natLog2 n + 1) :=
  natLog2F_spec 128 n h1 h2

lemma cast_pow_eq_zpow (t : ℕ) : ((2 ^ t : ℕ) : ℚ) = (2:ℚ) ^ (t : ℤ) := by
  push_cast
  rw [← zpow_natCast (2:ℚ) t]

lemma pow2LeFrac_iff {g : ℤ} {a b : ℕ} (hb : 1 ≤ b) :
    pow2LeFrac g a b = true ↔ (2:ℚ) ^ g ≤ (a:ℚ) / b := by
  have hb0 : (0:ℚ) < b := by exact_mod_cast hb
  unfold pow2LeFrac
  by_cases hg : 0 ≤ g
  · rw [if_pos hg]
    rw [decide_eq_true_eq]
    rw [le_div_iff₀ hb0]
    constructor
    · intro h
      calc (2:ℚ) ^ g * b = ((2 ^ g.toNat : ℕ) : ℚ) * b := by
            rw [cast_pow_eq_zpow, Int.toNat_of_nonneg hg]
        _ ≤ ((2 ^ g.toNat * b : ℕ) : ℚ) := by push_cast; ring_nf; rfl
        _ ≤ (a : ℚ) := by exact_mod_cast h
    · intro h
      have : ((2 ^ g.toNat * b : ℕ) : ℚ) ≤ (a : ℚ) := by
        calc ((2 ^ g.toNat * b : ℕ) : ℚ) = ((2 ^ g.toNat : ℕ) : ℚ) * b := by push_cast; ring
          _ = (2:ℚ) ^ g * b := by rw [cast_pow_eq_zpow, Int.toNat_of_nonneg hg]
          _ ≤ (a : ℚ) := h
      exact_mod_cast this
  · rw [if_neg hg]
    rw [decide_eq_true_eq]
    push_neg at hg
    have hd0 : (0:ℚ) < ((2 ^ (-g).toNat : ℕ) : ℚ) := by positivity
    have hpow : (2:ℚ) ^ g = 1 / ((2 ^ (-g).toNat : ℕ) : ℚ) := by
      rw [cast_pow_eq_zpow, Int.toNat_of_nonneg (by omega : 0 ≤ -g)]
      rw [one_div, ← zpow_neg]
      ring_nf
    rw [hpow, div_le_div_iff₀ hd0 hb0]
    constructor
    · intro h
      calc (1:ℚ) * b = (b:ℚ) := by ring
        _ ≤ ((2 ^ (-g).toNat * a : ℕ) : ℚ) := by exact_mod_cast h
        _ = (a:ℚ) * ((2 ^ (-g).toNat : ℕ) : ℚ) := by push_cast; ring
    · intro h
      have : (b : ℚ) ≤ ((2 ^ (-g).toNat * a : ℕ) : ℚ) := by
        calc (b:ℚ) = 1 * b := by ring
          _ ≤ (a:ℚ) * ((2 ^ (-g).toNat : ℕ) : ℚ) := h
          _ = ((2 ^ (-g).toNat * a : ℕ) : ℚ) := by push_cast; ring
      exact_mod_cast this

lemma frac_lt_pow_of_bounds {a b la lb : ℕ} (hb : 1 ≤ b)
    (hla : a < 2 ^ (la + 1)) (hlb : 2 ^ lb ≤ b) :
    (a:ℚ) / b < (2:ℚ) ^ ((la:ℤ) - lb + 1) := by
  have hb0 : (0:ℚ) < b := by exact_mod_cast hb
  have hpow : (2:ℚ) ^ ((la:ℤ) - lb + 1) = ((2 ^ (la + 1) : ℕ) : ℚ) / ((2 ^ lb : ℕ) : ℚ) := by
    rw [cast_pow_eq_zpow, cast_pow_eq_zpow, ← zpow_sub₀ (two_ne_zero)]
    congr 1
    push_cast
    ring
  rw [hpow]
  apply div_lt_div₀ (by exact_mod_cast hla) (by exact_mod_cast hlb) (by positivity)
    (by positivity)

lemma pow_le_frac_of_bounds {a b la lb : ℕ} (hb : 1 ≤ b)
    (hla : 2 ^ la ≤ a) (hlb : b < 2 ^ (lb + 1)) :
    (2:ℚ) ^ ((la:ℤ) - lb - 1) ≤ (a:ℚ) / b := by
  have hb0 : (0:ℚ) < b := by exact_mod_cast hb
  have hpow : (2:ℚ) ^ ((la:ℤ) - lb - 1) = ((2 ^ la : ℕ) : ℚ) / ((2 ^ (lb + 1) : ℕ) : ℚ) := by
    rw [cast_pow_eq_zpow, cast_pow_eq_zpow, ← zpow_sub₀ (two_ne_zero)]
    congr 1
    push_cast
    ring
  rw [hpow]
  apply div_le_div₀ (by positivity) (by exact_mod_cast hla) hb0 (by exact_mod_cast hlb.le)

lemma fracFloorLog2_spec {a b : ℕ} (ha : 1 ≤ a) (hb : 1 ≤ b)
    (ha' : a < 2 ^ 128) (hb' : b < 2 ^ 128) :
    (2:ℚ) ^ fracFloorLog2 a b ≤ (a:ℚ) / b ∧ (a:ℚ) / b < (2:ℚ) ^ (fracFloorLog2 a b + 1) := by
  obtain ⟨hla, hla'⟩ := natLog2_spec ha ha'
  obtain ⟨hlb, hlb'⟩ := natLog2_spec hb hb'
  unfold fracFloorLog2
  by_cases h : pow2LeFrac ((natLog2 a : ℤ) - (natLog2 b : ℤ)) a b = true
  · rw [if_pos h]
    exact ⟨(pow2LeFrac_iff hb).mp h, frac_lt_pow_of_bounds hb hla' hlb⟩
  · rw [if_neg h]
    have hlt : (a:ℚ) / b < (2:ℚ) ^ ((natLog2 a : ℤ) - natLog2 b) := by
      by_contra hcon
      push_neg at hcon
      exact h ((pow2LeFrac_iff hb).mpr hcon)
    constructor
    · exact pow_le_frac_of_bounds hb hla hlb'
    · have : (natLog2 a : ℤ) - natLog2 b - 1 + 1 = (natLog2 a : ℤ) - natLog2 b := by ring
      rw [this]
      exact hlt

/-- ⌊log₂ q⌋ for q > 0, at the rational level (proof-side twin of
`fracFloorLog2`, with no size bound). -/
def qLog2 (q : ℚ) : ℤ :=
  if (2:ℚ) ^ ((Nat.log 2 q.num.toNat : ℤ) - (Nat.log 2 q.den : ℤ)) ≤ q
  then (Nat.log 2 q.num.toNat : ℤ) - (Nat.log 2 q.den : ℤ)
  else (Nat.log 2 q.num.toNat : ℤ) - (Nat.log 2 q.den : ℤ) - 1

lemma num_toNat_div_den {q : ℚ} (hq : 0 < q) : ((q.num.toNat : ℕ) : ℚ) / (q.den : ℚ) = q := by
  have hnum : 0 < q.num := Rat.num_pos.mpr hq
  have : ((q.num.toNat : ℕ) : ℚ) = ((q.num : ℤ) : ℚ) := by
    exact_mod_cast congrArg (fun z : ℤ => (z : ℚ)) (Int.toNat_of_nonneg hnum.le)
  rw [this, Rat.num_div_den]

lemma qLog2_spec {q : ℚ} (hq : 0 < q) :
    (2:ℚ) ^ qLog2 q ≤ q ∧ q < (2:ℚ) ^ (qLog2 q + 1) := by
  have hnum : 0 < q.num := Rat.num_pos.mpr hq
  have ha : 1 ≤ q.num.toNat := by omega
  have hb : 1 ≤ q.den := q.pos
  have hane : q.num.toNat ≠ 0 := by omega
  have hbne : q.den ≠ 0 := by omega
  have hla := Nat.pow_log_le_self 2 hane
  have hla' := Nat.lt_pow_succ_log_self (by norm_num : 1 < 2) q.num.toNat
  have hlb := Nat.pow_log_le_self 2 hbne
  have hlb' := Nat.lt_pow_succ_log_self (by norm_num : 1 < 2) q.den
  have hcast := num_toNat_div_den hq
  unfold qLog2
  by_cases h : (2:ℚ) ^ ((Nat.log 2 q.num.toNat : ℤ) - (Nat.log 2 q.den : ℤ)) ≤ q
  · rw [if_pos h]
    refine ⟨h, ?_⟩
    have hx := frac_lt_pow_of_bounds hb (by omega : q.num.toNat < 2 ^ (Nat.log 2 q.num.toNat + 1)) hlb
    rw [hcast] at hx
    exact hx
  · rw [if_neg h]
    push_neg at h
    constructor
    · have hx := pow_le_frac_of_bounds hb hla
        (by omega : q.den < 2 ^ (Nat.log 2 q.den + 1))
      rw [hcast] at hx
      exact hx
    · have heq : (Nat.log 2 q.num.toNat : ℤ) - Nat.log 2 q.den - 1 + 1 =
          (Nat.log 2 q.num.toNat : ℤ) - Nat.log 2 q.den := by ring
      rw [heq]
      exact h

lemma floorLog2_uniq {q : ℚ} {k1 k2 : ℤ} (h1 : (2:ℚ) ^ k1 ≤ q) (h1' : q < 2 ^ (k1 + 1))
    (h2 : (2:ℚ) ^ k2 ≤ q) (h2' : q < 2 ^ (k2 + 1)) : k1 = k2 := by
  have ha := (zpow_lt_zpow_iff_right₀ (by norm_num : (1:ℚ) < 2)).mp (lt_of_le_of_lt h1 h2')
  have hb := (zpow_lt_zpow_iff_right₀ (by norm_num : (1:ℚ) < 2)).mp (lt_of_le_of_lt h2 h1')
  omega

lemma fracFloorLog2_eq_qLog2 {a b : ℕ} (ha : 1 ≤ a) (hb : 1 ≤ b)
    (ha' : a < 2 ^ 128) (hb' : b < 2 ^ 128) :
    fracFloorLog2 a b = qLog2 ((a:ℚ) / b) := by
  have hq : 0 < (a:ℚ) / b := by positivity
  obtain ⟨p1, p2⟩ := fracFloorLog2_spec ha hb ha' hb'
  obtain ⟨r1, r2⟩ := qLog2_spec hq
  exact floorLog2_uniq p1 p2 r1 r2

/-- Round a rational to the nearest integer, ties to even (proof-side
twin of `rneNat`). -/
def rneInt (q : ℚ) : ℤ :=
  if q - ⌊q⌋ < 1 / 2 then ⌊q⌋
  else if 1 / 2 < q - ⌊q⌋ then ⌊q⌋ + 1
  else if ⌊q⌋ % 2 = 0 then ⌊q⌋ else ⌊q⌋ + 1

lemma floor_le_rneInt (q : ℚ) : ⌊q⌋ ≤ rneInt q := by
  unfold rneInt
  split_ifs <;> omega

lemma rneInt_le_floor_add_one (q : ℚ) : rneInt q ≤ ⌊q⌋ + 1 := by
  unfold rneInt
  split_ifs <;> omega

lemma rneInt_le_add_half (q : ℚ) : (rneInt q : ℚ) ≤ q + 1 / 2 := by
  have hf := Int.floor_le q
  unfold rneInt
  split_ifs with h1 h2 h3
  · linarith
  · push_cast
    linarith
  · linarith
  · push_cast
    linarith

lemma sub_half_le_rneInt (q : ℚ) : q - 1 / 2 ≤ (rneInt q : ℚ) := by
  have hf := Int.lt_floor_add_one q
  unfold rneInt
  split_ifs with h1 h2 h3
  · linarith
  · push_cast
    linarith
  · linarith
  · push_cast
    linarith

lemma rneInt_mono {a b : ℚ} (h : a ≤ b) : rneInt a ≤ rneInt b := by
  by_contra hlt
  push_neg at hlt
  have h1 : (rneInt b : ℚ) + 1 ≤ (rneInt a : ℚ) := by exact_mod_cast hlt
  have h2 := rneInt_le_add_half a
  have h3 := sub_half_le_rneInt b
  have hab : a = b := by linarith
  rw [hab] at hlt
  omega

lemma rneInt_intCast (z : ℤ) : rneInt ((z : ℤ) : ℚ) = z := by
  unfold rneInt
  rw [Int.floor_intCast]
  rw [if_pos (by norm_num)]

/-- Floor of a natural fraction is natural division. -/
lemma floor_natCast_div (a b : ℕ) (hb : 1 ≤ b) : ⌊(a:ℚ) / (b:ℚ)⌋ = ((a / b : ℕ) : ℤ) := by
  have hb0 : (0:ℚ) < b := by exact_mod_cast hb
  rw [Int.floor_eq_iff]
  constructor
  · rw [le_div_iff₀ hb0]
    push_cast
    exact_mod_cast Nat.div_mul_le_self a b
  · rw [div_lt_iff₀ hb0]
    have h1 : b * (a / b) + a % b = a := Nat.div_add_mod a b
    have h2 : a % b < b := Nat.mod_lt a (by omega)
    have h3 : a < (a / b + 1) * b := by nlinarith
    push_cast
    exact_mod_cast h3

lemma rneNat_cast {a b : ℕ} (hb : 1 ≤ b) : ((rneNat a b : ℕ) : ℤ) = rneInt ((a:ℚ) / b) := by
  have hb0 : (0:ℚ) < b := by exact_mod_cast hb
  have hfloor := floor_natCast_div a b hb
  have hdm : ((b * (a / b) + a % b : ℕ) : ℚ) = (a : ℚ) := by
    exact_mod_cast congrArg (fun n : ℕ => (n : ℚ)) (Nat.div_add_mod a b)
  have hr : (a:ℚ) / b - (⌊(a:ℚ) / b⌋ : ℚ) = ((a % b : ℕ) : ℚ) / b := by
    have key : (a:ℚ) = ((a % b : ℕ) : ℚ) + ((a / b : ℕ) : ℚ) * b := by
      push_cast at hdm
      linarith
    rw [hfloor, Int.cast_natCast, sub_eq_iff_eq_add, div_add' _ _ _ (ne_of_gt hb0), ← key]
  have hlt : ((a % b : ℕ) : ℚ) / b < 1 / 2 ↔ 2 * (a % b) < b := by
    rw [div_lt_div_iff₀ hb0 (by norm_num : (0:ℚ) < 2)]
    constructor
    · intro h
      have : ((2 * (a % b) : ℕ) : ℚ) < (b : ℚ) := by push_cast at h ⊢; linarith
      exact_mod_cast this
    · intro h
      have : ((2 * (a % b) : ℕ) : ℚ) < (b : ℚ) := by exact_mod_cast h
      push_cast at this ⊢
      linarith
  have hgt : 1 / 2 < ((a % b : ℕ) : ℚ) / b ↔ b < 2 * (a % b) := by
    rw [div_lt_div_iff₀ (by norm_num : (0:ℚ) < 2) hb0]
    constructor
    · intro h
      have : (b : ℚ) < ((2 * (a % b) : ℕ) : ℚ) := by push_cast at h ⊢; linarith
      exact_mod_cast this
    · intro h
      have : (b : ℚ) < ((2 * (a % b) : ℕ) : ℚ) := by exact_mod_cast h
      push_cast at this ⊢
      linarith
  have hpar : ((a / b : ℕ) : ℤ) % 2 = 0 ↔ (a / b) % 2 = 0 := by omega
  unfold rneNat rneInt
  rw [hr, hfloor]
  by_cases h1 : 2 * (a % b) < b
  · have q1 : ((a % b : ℕ) : ℚ) / b < 1 / 2 := hlt.mpr h1
    rw [if_pos h1, if_pos q1]
  · have q1 : ¬(((a % b : ℕ) : ℚ) / b < 1 / 2) := by rw [hlt]; exact h1
    rw [if_neg h1, if_neg q1]
    by_cases h2 : b < 2 * (a % b)
    · have q2 : 1 / 2 < ((a % b : ℕ) : ℚ) / b := hgt.mpr h2
      rw [if_pos h2, if_pos q2]
      push_cast
      ring
    · have q2 : ¬(1 / 2 < ((a % b : ℕ) : ℚ) / b) := by rw [hgt]; exact h2
      rw [if_neg h2, if_neg q2]
      by_cases h3 : (a / b) % 2 = 0
      · have q3 : ((a / b : ℕ) : ℤ) % 2 = 0 := hpar.mpr h3
        rw [if_pos h3, if_pos q3]
      · have q3 : ¬(((a / b : ℕ) : ℤ) % 2 = 0) := by rw [hpar]; exact h3
        rw [if_neg h3, if_neg q3]
        push_cast
        ring

/-- The IEEE binary64 value nearest to q (round-to-nearest, ties-to-even):
the significand q/2^(⌊log₂ q⌋ - 52) lies in [2^52, 2^53) and is rounded
to an integer.  0 for q ≤ 0; normal range only (no overflow or subnormal
handling), which covers every value the progress computation produces. -/
def roundDouble (q : ℚ) : ℚ :=
  if q ≤ 0 then 0
  else (rneInt (q / 2 ^ (qLog2 q - 52)) : ℚ) * 2 ^ (qLog2 q - 52)

lemma roundDouble_of_pos {q : ℚ} (hq : 0 < q) :
    roundDouble q = (rneInt (q / 2 ^ (qLog2 q - 52)) : ℚ) * 2 ^ (qLog2 q - 52) := by
  unfold roundDouble
  rw [if_neg (not_le.mpr hq)]

lemma scaled_bracket {q : ℚ} (hq : 0 < q) :
    (2:ℚ) ^ (52 : ℤ) ≤ q / 2 ^ (qLog2 q - 52) ∧ q / 2 ^ (qLog2 q - 52) < 2 ^ (53 : ℤ) := by
  obtain ⟨h1, h2⟩ := qLog2_spec hq
  have hp : (0:ℚ) < 2 ^ (qLog2 q - 52) := by positivity
  constructor
  · rw [le_div_iff₀ hp, ← zpow_add₀ (two_ne_zero (α := ℚ))]
    have he : (52 : ℤ) + (qLog2 q - 52) = qLog2 q := by ring
    rw [he]
    exact h1
  · rw [div_lt_iff₀ hp, ← zpow_add₀ (two_ne_zero (α := ℚ))]
    have he : (53 : ℤ) + (qLog2 q - 52) = qLog2 q + 1 := by ring
    rw [he]
    exact h2

lemma rneInt_scaled_lower {x : ℚ} (hx : (2:ℚ) ^ (52 : ℤ) ≤ x) :
    (2 ^ 52 : ℤ) ≤ rneInt x := by
  refine le_trans ?_ (floor_le_rneInt x)
  rw [Int.le_floor]
  calc ((2 ^ 52 : ℤ) : ℚ) = (2:ℚ) ^ (52 : ℤ) := by norm_num [zpow_ofNat]
    _ ≤ x := hx

lemma rneInt_scaled_upper {x : ℚ} (hx : x < (2:ℚ) ^ (53 : ℤ)) :
    rneInt x ≤ (2 ^ 53 : ℤ) := by
  refine le_trans (rneInt_le_floor_add_one x) ?_
  have : ⌊x⌋ < (2 ^ 53 : ℤ) := by
    rw [Int.floor_lt]
    calc x < (2:ℚ) ^ (53 : ℤ) := hx
      _ = ((2 ^ 53 : ℤ) : ℚ) := by norm_num [zpow_ofNat]
  omega

lemma roundDouble_nonneg (q : ℚ) : 0 ≤ roundDouble q := by
  unfold roundDouble
  by_cases hq : q ≤ 0
  · rw [if_pos hq]
  · rw [if_neg hq]
    push_neg at hq
    have hl := rneInt_scaled_lower (scaled_bracket hq).1
    have : (0:ℚ) ≤ (rneInt (q / 2 ^ (qLog2 q - 52)) : ℚ) := by
      exact_mod_cast le_trans (by positivity) hl
    exact mul_nonneg this (by positivity)

lemma roundDouble_mono {a b : ℚ} (h : a ≤ b) : roundDouble a ≤ roundDouble b := by
  by_cases ha : a ≤ 0
  · calc roundDouble a = 0 := by unfold roundDouble; rw [if_pos ha]
      _ ≤ roundDouble b := roundDouble_nonneg b
  · push_neg at ha
    have hb : 0 < b := lt_of_lt_of_le ha h
    have hk : qLog2 a ≤ qLog2 b := by
      have h1 := (qLog2_spec ha).1
      have h2 := (qLog2_spec hb).2
      have h3 : (2:ℚ) ^ qLog2 a < 2 ^ (qLog2 b + 1) := lt_of_le_of_lt (le_trans h1 h) h2
      have h4 := (zpow_lt_zpow_iff_right₀ (by norm_num : (1:ℚ) < 2)).mp h3
      omega
    rw [roundDouble_of_pos ha, roundDouble_of_pos hb]
    rcases eq_or_lt_of_le hk with heq | hlt
    · rw [← heq]
      apply mul_le_mul_of_nonneg_right ?_ (by positivity)
      have hdiv : a / 2 ^ (qLog2 a - 52) ≤ b / 2 ^ (qLog2 a - 52) := by gcongr
      exact_mod_cast rneInt_mono hdiv
    · have c52 : ((2 ^ 52 : ℤ) : ℚ) = (2:ℚ) ^ (52 : ℤ) := by norm_num [zpow_ofNat]
      have c53 : ((2 ^ 53 : ℤ) : ℚ) = (2:ℚ) ^ (53 : ℤ) := by norm_num [zpow_ofNat]
      calc (rneInt (a / 2 ^ (qLog2 a - 52)) : ℚ) * 2 ^ (qLog2 a - 52)
          ≤ ((2 ^ 53 : ℤ) : ℚ) * 2 ^ (qLog2 a - 52) := by
            apply mul_le_mul_of_nonneg_right ?_ (by positivity)
            exact_mod_cast rneInt_scaled_upper (scaled_bracket ha).2
        _ = 2 ^ (qLog2 a + 1) := by
            rw [c53, ← zpow_add₀ (two_ne_zero (α := ℚ))]
            congr 1
            ring
        _ ≤ 2 ^ (qLog2 b : ℤ) := by
            apply zpow_le_zpow_right₀ (by norm_num)
            omega
        _ = ((2 ^ 52 : ℤ) : ℚ) * 2 ^ (qLog2 b - 52) := by
            rw [c52, ← zpow_add₀ (two_ne_zero (α := ℚ))]
            congr 1
            ring
        _ ≤ (rneInt (b / 2 ^ (qLog2 b - 52)) : ℚ) * 2 ^ (qLog2 b - 52) := by
            apply mul_le_mul_of_nonneg_right ?_ (by positivity)
            exact_mod_cast rneInt_scaled_lower (scaled_bracket hb).1

/-- The binary64 significand/exponent pair (m, e) of the IEEE double
nearest to a/b (round-to-nearest, ties-to-even): fl(a/b) = m·2^e with
2^52 ≤ m ≤ 2^53, in kernel-evaluable natural arithmetic. -/
def flScaled (a b : ℕ) : ℕ × ℤ :=
  if 0 ≤ fracFloorLog2 a b - 52 then
    (rneNat a (b * 2 ^ (fracFloorLog2 a b - 52).toNat), fracFloorLog2 a b - 52)
  else
    (rneNat (a * 2 ^ (-(fracFloorLog2 a b - 52)).toNat) b, fracFloorLog2 a b - 52)

lemma flScaled_val {a b : ℕ} (ha : 1 ≤ a) (hb : 1 ≤ b)
    (ha' : a < 2 ^ 128) (hb' : b < 2 ^ 128) :
    ((flScaled a b).1 : ℚ) * (2:ℚ) ^ (flScaled a b).2 = roundDouble ((a:ℚ) / b) ∧
    2 ^ 52 ≤ (flScaled a b).1 ∧ (flScaled a b).1 ≤ 2 ^ 53 ∧
    (flScaled a b).2 = fracFloorLog2 a b - 52 := by
  have hb0 : (0:ℚ) < b := by exact_mod_cast hb
  have hq : (0:ℚ) < (a:ℚ) / b := by positivity
  have hlog := fracFloorLog2_eq_qLog2 ha hb ha' hb'
  have hbr := scaled_bracket hq
  have hcast : ∀ m : ℕ, ((m : ℕ) : ℤ) = rneInt ((a:ℚ) / b / 2 ^ (qLog2 ((a:ℚ) / b) - 52)) →
      ((m : ℕ) : ℚ) = (rneInt ((a:ℚ) / b / 2 ^ (qLog2 ((a:ℚ) / b) - 52)) : ℚ) := by
    intro m hm
    exact_mod_cast congrArg (fun z : ℤ => (z : ℚ)) hm
  have hmain : ((flScaled a b).1 : ℤ) = rneInt ((a:ℚ) / b / 2 ^ (qLog2 ((a:ℚ) / b) - 52)) ∧
      (flScaled a b).2 = fracFloorLog2 a b - 52 := by
    unfold flScaled
    by_cases he : 0 ≤ fracFloorLog2 a b - 52
    · rw [if_pos he]
      refine ⟨?_, rfl⟩
      have hb2 : 1 ≤ b * 2 ^ (fracFloorLog2 a b - 52).toNat :=
        Nat.mul_pos (by omega) (Nat.two_pow_pos _)
      rw [rneNat_cast hb2]
      congr 1
      rw [div_div]
      congr 1
      push_cast
      rw [← zpow_natCast (2:ℚ) (fracFloorLog2 a b - 52).toNat,
        Int.toNat_of_nonneg he, hlog]
    · rw [if_neg he]
      refine ⟨?_, rfl⟩
      push_neg at he
      rw [rneNat_cast hb]
      congr 1
      rw [← hlog]
      have h2 : ((a * 2 ^ (-(fracFloorLog2 a b - 52)).toNat : ℕ) : ℚ) =
          (a : ℚ) * (2:ℚ) ^ (-(fracFloorLog2 a b - 52)) := by
        push_cast
        rw [← zpow_natCast (2:ℚ) (-(fracFloorLog2 a b - 52)).toNat,
          Int.toNat_of_nonneg (by omega : (0:ℤ) ≤ -(fracFloorLog2 a b - 52))]
      rw [h2, zpow_neg]
      field_simp
      exact Or.inl (by ring)
  obtain ⟨hm, he⟩ := hmain
  have hml : 2 ^ 52 ≤ (flScaled a b).1 := by
    have := rneInt_scaled_lower hbr.1
    omega
  have hmu : (flScaled a b).1 ≤ 2 ^ 53 := by
    have := rneInt_scaled_upper hbr.2
    omega
  refine ⟨?_, hml, hmu, he⟩
  rw [roundDouble_of_pos hq, he, hlog]
  congr 1
  exact_mod_cast congrArg (fun z : ℤ => (z : ℚ)) hm

/-- Second rounding stage: the double fl(x1) = m·2^e (from stage one)
is multiplied by the exact constant 100 and rounded again, as the JS
expression `((i + 1) / totalSteps) * 100` does. -/
def flStage2 (p : ℕ × ℤ) : ℕ × ℤ :=
  if 0 ≤ p.2 then flScaled (p.1 * 100 * 2 ^ p.2.toNat) 1
  else flScaled (p.1 * 100) (2 ^ (-p.2).toNat)

/-- ECMAScript `Math.round` applied to the exact value m·2^e of a double:
the nearest integer, ties toward +∞, i.e. ⌊m·2^e + 1/2⌋. -/
def jsMathRoundPair (p : ℕ × ℤ) : ℕ :=
  if 0 ≤ p.2 then p.1 * 2 ^ p.2.toNat
  else (2 * p.1 + 2 ^ (-p.2).toNat) / 2 ^ ((-p.2).toNat + 1)

lemma jsMathRoundPair_eq (p : ℕ × ℤ) :
    ((jsMathRoundPair p : ℕ) : ℤ) = ⌊(p.1 : ℚ) * (2:ℚ) ^ p.2 + 1 / 2⌋ := by
  unfold jsMathRoundPair
  by_cases he : 0 ≤ p.2
  · rw [if_pos he]
    have hval : (p.1 : ℚ) * (2:ℚ) ^ p.2 = ((p.1 * 2 ^ p.2.toNat : ℕ) : ℚ) := by
      push_cast
      rw [← zpow_natCast (2:ℚ) p.2.toNat, Int.toNat_of_nonneg he]
    rw [hval]
    rw [Int.floor_nat_add]
    norm_num
  · rw [if_neg he]
    push_neg at he
    have hval : (p.1 : ℚ) * (2:ℚ) ^ p.2 + 1 / 2 =
        ((2 * p.1 + 2 ^ (-p.2).toNat : ℕ) : ℚ) / ((2 ^ ((-p.2).toNat + 1) : ℕ) : ℚ) := by
      have hzp : (2:ℚ) ^ p.2 = ((2:ℚ) ^ ((-p.2).toNat : ℕ))⁻¹ := by
        conv_lhs => rw [show p.2 = -(((-p.2).toNat : ℕ) : ℤ) by omega]
        rw [zpow_neg, zpow_natCast]
      rw [hzp]
      push_cast
      field_simp
      ring
    rw [hval, floor_natCast_div _ _ (Nat.one_le_two_pow)]

/-- The progress value `Math.round(((i + 1) / totalSteps) * 100)` the
loop writes for 1-based step k of n, evaluated exactly as IEEE binary64
with the ECMAScript `Math.round` (nearest integer, ties toward +∞):
one correctly-rounded division (a JS array length and the loop index are
below 2^32 and hence exact doubles), one correctly-rounded
multiplication by 100, then `Math.round` on the exact value of the
resulting double.  The guard value 0 for n = 0 or k = 0 is never reached
from the loop. -/
def jsStepProgress (n k : ℕ) : ℕ :=
  if n = 0 ∨ k = 0 then 0
  else jsMathRoundPair (flStage2 (flScaled k n))

lemma jsStepProgress_eq {n k : ℕ} (hn : 1 ≤ n) (hk : 1 ≤ k) (hkn : k ≤ n)
    (hn32 : n < 2 ^ 32) :
    jsStepProgress n k =
      (⌊roundDouble (roundDouble ((k:ℚ) / n) * 100) + 1 / 2⌋).toNat := by
  have hn0 : (0:ℚ) < n := by exact_mod_cast hn
  have hk128 : k < 2 ^ 128 := by
    have : (2:ℕ) ^ 32 < 2 ^ 128 := by norm_num
    omega
  have hn128 : n < 2 ^ 128 := by
    have : (2:ℕ) ^ 32 < 2 ^ 128 := by norm_num
    omega
  obtain ⟨hval1, hm1l, hm1u, he1⟩ := flScaled_val hk hn hk128 hn128
  have hspec1 := fracFloorLog2_spec hk hn hk128 hn128
  have hF1u : fracFloorLog2 k n ≤ 0 := by
    have hle1 : (k:ℚ) / n ≤ 1 := by
      rw [div_le_one hn0]
      exact_mod_cast hkn
    by_contra hc
    push_neg at hc
    have hlt : (2:ℚ) ^ (0:ℤ) < 2 ^ fracFloorLog2 k n :=
      (zpow_lt_zpow_iff_right₀ (by norm_num : (1:ℚ) < 2)).mpr hc
    rw [zpow_zero] at hlt
    linarith [hspec1.1]
  have hF1l : -32 ≤ fracFloorLog2 k n := by
    have h32 : (2:ℚ) ^ (-32 : ℤ) < (k:ℚ) / n := by
      have hklow : (1:ℚ) ≤ (k:ℚ) := by exact_mod_cast hk
      have hnlt : (n:ℚ) < 2 ^ (32:ℕ) := by exact_mod_cast hn32
      have e1 : (2:ℚ) ^ (-32 : ℤ) = ((2:ℚ) ^ (32:ℕ))⁻¹ := by
        rw [show (-32 : ℤ) = -((32:ℕ):ℤ) by norm_num, zpow_neg, zpow_natCast]
      rw [e1]
      calc ((2:ℚ) ^ (32:ℕ))⁻¹ < (n:ℚ)⁻¹ := by
            exact inv_strictAnti₀ hn0 hnlt
        _ = 1 / n := by rw [one_div]
        _ ≤ (k:ℚ) / n := by gcongr
    have := (zpow_lt_zpow_iff_right₀ (by norm_num : (1:ℚ) < 2)).mp
      (lt_trans h32 hspec1.2)
    omega
  have he1neg : (flScaled k n).2 < 0 := by
    rw [he1]
    omega
  have hstage2 : flStage2 (flScaled k n) =
      flScaled ((flScaled k n).1 * 100) (2 ^ (-(flScaled k n).2).toNat) := by
    unfold flStage2
    rw [if_neg (not_le.mpr he1neg)]
  have hd84 : (-(flScaled k n).2).toNat ≤ 84 := by
    rw [he1]
    omega
  have ha2 : 1 ≤ (flScaled k n).1 * 100 := by
    have : (0:ℕ) < 2 ^ 52 := Nat.two_pow_pos 52
    omega
  have hb2 : 1 ≤ 2 ^ (-(flScaled k n).2).toNat := Nat.one_le_two_pow
  have ha2' : (flScaled k n).1 * 100 < 2 ^ 128 := by
    have : (2:ℕ) ^ 53 * 100 < 2 ^ 128 := by norm_num
    omega
  have hb2' : 2 ^ (-(flScaled k n).2).toNat < 2 ^ 128 := by
    calc (2:ℕ) ^ (-(flScaled k n).2).toNat ≤ 2 ^ 84 :=
          Nat.pow_le_pow_right (by norm_num) hd84
      _ < 2 ^ 128 := by norm_num
  obtain ⟨hval2, hm2l, hm2u, he2⟩ := flScaled_val ha2 hb2 ha2' hb2'
  have hfrac2 : (((flScaled k n).1 * 100 : ℕ) : ℚ) /
      ((2 ^ (-(flScaled k n).2).toNat : ℕ) : ℚ) = roundDouble ((k:ℚ) / n) * 100 := by
    rw [← hval1]
    have hzp : (2:ℚ) ^ (flScaled k n).2 = ((2:ℚ) ^ ((-(flScaled k n).2).toNat : ℕ))⁻¹ := by
      conv_lhs => rw [show (flScaled k n).2 = -(((-(flScaled k n).2).toNat : ℕ) : ℤ) by omega]
      rw [zpow_neg, zpow_natCast]
    rw [hzp]
    push_cast
    have h2pos : (0:ℚ) < 2 ^ (-(flScaled k n).2).toNat := by positivity
    field_simp
  have hfinal : ((jsMathRoundPair (flStage2 (flScaled k n)) : ℕ) : ℤ) =
      ⌊roundDouble (roundDouble ((k:ℚ) / n) * 100) + 1 / 2⌋ := by
    rw [hstage2, jsMathRoundPair_eq, ← hfrac2, ← hval2]
  unfold jsStepProgress
  rw [if_neg (by omega)]
  omega

lemma jsStepProgress_mono {n k1 k2 : ℕ} (hn : 1 ≤ n) (hn32 : n < 2 ^ 32)
    (hk1 : 1 ≤ k1) (h12 : k1 ≤ k2) (hk2n : k2 ≤ n) :
    jsStepProgress n k1 ≤ jsStepProgress n k2 := by
  have hn0 : (0:ℚ) < n := by exact_mod_cast hn
  rw [jsStepProgress_eq hn hk1 (le_trans h12 hk2n) hn32,
    jsStepProgress_eq hn (le_trans hk1 h12) hk2n hn32]
  have hdiv : (k1:ℚ) / n ≤ (k2:ℚ) / n := by gcongr
  have h1 := roundDouble_mono hdiv
  have h2 : roundDouble ((k1:ℚ) / n) * 100 ≤ roundDouble ((k2:ℚ) / n) * 100 := by
    nlinarith
  have h3 := roundDouble_mono h2
  have h4 : ⌊roundDouble (roundDouble ((k1:ℚ) / n) * 100) + 1 / 2⌋ ≤
      ⌊roundDouble (roundDouble ((k2:ℚ) / n) * 100) + 1 / 2⌋ := by
    apply Int.floor_mono
    linarith
  omega

lemma fracFloorLog2_self (n : ℕ) : fracFloorLog2 n n = 0 := by
  unfold fracFloorLog2
  rw [sub_self]
  rw [if_pos]
  unfold pow2LeFrac
  rw [if_pos le_rfl]
  simp

lemma flScaled_self {n : ℕ} (hn : 1 ≤ n) : flScaled n n = (2 ^ 52, -52) := by
  unfold flScaled
  rw [fracFloorLog2_self n]
  norm_num
  unfold rneNat
  rw [show Int.toNat 52 = 52 from rfl]
  rw [Nat.mul_mod_right n (2 ^ 52), Nat.mul_div_cancel_left _ (show 0 < n by omega)]
  rw [if_pos (by omega : 2 * 0 < n)]
  norm_num

lemma jsStepProgress_last {n : ℕ} (hn : 1 ≤ n) : jsStepProgress n n = 100 := by
  unfold jsStepProgress
  rw [if_neg (by omega), flScaled_self hn]
  decide



/-- `Array.isArray(template.steps) ? template.steps : []`. -/
def templateSteps (t : TaskTemplate) : List TaskStep :=
  t.steps.getD []

/-- `step.description || step.type`: the JavaScript `||` falls back on the
falsy empty string as well as on an absent field. -/
def stepLabel (st : TaskStep) : String :=
  match st.description with
  | some d => if d = "" then st.type else d
  | none => st.type

/-- The partial update issued by loop iteration `i` (0-based) of
`executeTaskInBackground` over `n` total steps: progress
`Math.round(((i + 1) / n) * 100)` and logs replaced by the single entry
for step `i + 1`. -/
def stepUpdate (n i : Nat) (st : TaskStep) : TaskExecutionUpdate :=
  { progress := some (jsStepProgress n (i + 1))
    logs := some ["Step " ++ toString (i + 1) ++ ": " ++ stepLabel st] }

/-- The final update of a successful run: status completed, progress 100,
success result. -/
def completedUpdate : TaskExecutionUpdate :=
  { status := some ExecStatus.completed
    progress := some 100
    result := some (some
      { success := true
        message := some "Task completed successfully"
        error := none }) }

/-- The update issued by the catch branch: status failed with the error's
string representation in the result. -/
def failedUpdate (err : String) : TaskExecutionUpdate :=
  { status := some ExecStatus.failed
    result := some (some { success := false, message := none, error := some err }) }

/-- The ordered list of per-step updates a run of
`executeTaskInBackground` issues for a template (one per step, in step
order). -/
def backgroundStepUpdates (t : TaskTemplate) : List TaskExecutionUpdate :=
  let steps := templateSteps t
  steps.enum.map (fun p => stepUpdate steps.length p.1 p.2)

/-- All updates issued by a run of `executeTaskInBackground` that throws
no error: the per-step updates followed by the completion update. -/
def backgroundRunUpdates (t : TaskTemplate) : List TaskExecutionUpdate :=
  backgroundStepUpdates t ++ [completedUpdate]

/-- Apply a list of execution updates to the store in order, as the
background routine's sequential awaits do. -/
def applyExecUpdates (s : MemStorage) (id : String)
    (us : List TaskExecutionUpdate) (now : Nat) : MemStorage :=
  us.foldl (fun st u => (updateTaskExecution st id u now).2) s

/-- The store after a run of `executeTaskInBackground` for execution `id`
and template `t` that throws no error. -/
def runBackgroundSuccess (s : MemStorage) (id : String) (t : TaskTemplate)
    (now : Nat) : MemStorage :=
  applyExecUpdates s id (backgroundRunUpdates t) now

/-- The progress values carried by the per-step updates, in order. -/
def stepProgressValues (t : TaskTemplate) : List Nat :=
  (backgroundStepUpdates t).filterMap (fun u => u.progress)

/-! ## The `POST /api/tasks/execute` route handler -/

/-- Request body of `POST /api/tasks/execute` (`parameters` is opaque and
unused by the handler's control flow). -/
structure ExecuteRequestBody where
  templateId : Option String
  deriving DecidableEq, Repr

/-- Response bodies produced by the handler. -/
inductive ApiBody where
  | errorBody (message : String)
  | executionBody (e : TaskExecution)
  deriving DecidableEq, Repr

/-- JavaScript truthiness of an optional string
(`undefined` and `""` are falsy). -/
def jsTruthyString : Option String → Bool
  | none => false
  | some s => decide (s ≠ "")

/-- The `POST /api/tasks/execute` handler, up to the point where the
background routine is started: HTTP status, response body, and the store
after the handler's own mutations.  `newId` and `now` stand for
`randomUUID()` and `new Date()` inside `createTaskExecution`. -/
def postTasksExecute (s : MemStorage) (body : ExecuteRequestBody)
    (newId : String) (now : Nat) : (Nat × ApiBody) × MemStorage :=
  if jsTruthyString body.templateId = false then
    ((400, ApiBody.errorBody "Template ID required"), s)
  else
    let tid := body.templateId.getD ""
    match getTaskTemplate s tid with
    | none => ((404, ApiBody.errorBody "Template not found"), s)
    | some _ =>
        let created := createTaskExecution s
          { templateId := tid
            userId := DEFAULT_USER_ID
            status := ExecStatus.running
            progress := 0
            logs := []
            result := none } newId now
        ((200, ApiBody.executionBody created.1), created.2)

/-! ## Reachable server states

The only call sites of `createTaskExecution` and `updateTaskExecution`
in the repository are the `POST /api/tasks/execute` handler and the
three update calls inside `executeTaskInBackground`.  `ServerStep`
captures exactly these operations (at arbitrary arguments and times, so
every interleaving of concurrent background runs is covered). -/

/-- One storage mutation affecting the executions table, as performed by
the server code. -/
inductive ServerStep : MemStorage → MemStorage → Prop where
  | execute (s : MemStorage) (body : ExecuteRequestBody) (newId : String) (now : Nat) :
      ServerStep s (postTasksExecute s body newId now).2
  | stepProgress (s : MemStorage) (id : String) (n i : Nat) (st : TaskStep) (now : Nat) :
      ServerStep s (updateTaskExecution s id (stepUpdate n i st) now).2
  | complete (s : MemStorage) (id : String) (now : Nat) :
      ServerStep s (updateTaskExecution s id completedUpdate now).2
  | fail (s : MemStorage) (id : String) (err : String) (now : Nat) :
      ServerStep s (updateTaskExecution s id (failedUpdate err) now).2

/-- Storage states reachable from the freshly constructed store through
the server's execution-table operations. -/
inductive Reachable : MemStorage → Prop where
  | init : Reachable defaultStorage
  | step (s s' : MemStorage) : Reachable s → ServerStep s s' → Reachable s'

/-! ## AI processor (from `AIProcessor`) -/

/-- Result of an interaction with the hosted completion backend for the
voice-command prompt.  `failure` embeds a thrown error (network error or
timeout); `malformed` a response whose content `JSON.parse` rejects
(the throw lands in the same catch branch); `parsed` a JSON object whose
relevant fields may each be absent. -/
inductive VoiceBackendResult where
  | failure
  | malformed
  | parsed (intent : Option String) (confidence : Option ℚ)
      (parameters : Option (List (String × String)))
  deriving DecidableEq

/-- The structured command returned by `processVoiceCommand`
(`parameters` modelled as a JSON-object association list). -/
structure VoiceCommand where
  text : String
  intent : String
  confidence : ℚ
  parameters : List (String × String)
  deriving DecidableEq

/-- JavaScript `x || d` for an optional string (absent and `""` are falsy). -/
def jsOrString (x : Option String) (d : String) : String :=
  match x with
  | some s => if s = "" then d else s
  | none => d

/-- JavaScript `x || d` for an optional number (absent and `0` are falsy). -/
def jsOrNum (x : Option ℚ) (d : ℚ) : ℚ :=
  match x with
  | some q => if q = 0 then d else q
  | none => d

/-- `AIProcessor.processVoiceCommand`: on any backend failure or
unparseable content the catch branch returns the safe default
(`intent: "help"`, `confidence: 0`, empty parameters); otherwise the
parsed fields with `|| "help"`, clamped `|| 0` confidence, `|| {}`
parameters. -/
def processVoiceCommand (text : String) (backend : VoiceBackendResult) : VoiceCommand :=
  match backend with
  | VoiceBackendResult.failure =>
      { text := text, intent := "help", confidence := 0, parameters := [] }
  | VoiceBackendResult.malformed =>
      { text := text, intent := "help", confidence := 0, parameters := [] }
  | VoiceBackendResult.parsed intent confidence parameters =>
      { text := text
        intent := jsOrString intent "help"
        confidence := max 0 (min 1 (jsOrNum confidence 0))
        parameters := parameters.getD [] }

/-- A suggested automation action attached to a chat reply. -/
structure TaskAction where
  id : String
  type : String
  label : String
  parameters : List (String × String)
  deriving DecidableEq

/-- A chat message (`timestamp` as the `Date.now()` tick;
`actions` absent on the failure path). -/
structure ChatMessage where
  id : String
  role : String
  content : String
  timestamp : Nat
  actions : Option (List TaskAction)
  deriving DecidableEq

/-- Whether `pat` is a prefix of `s`, over character lists. -/
def charsHavePrefix : List Char → List Char → Bool
  | [], _ => true
  | _ :: _, [] => false
  | c :: cs, d :: ds => c == d && charsHavePrefix cs ds

/-- Whether `pat` occurs contiguously in `s`, over character lists. -/
def charsContain (pat : List Char) : List Char → Bool
  | [] => charsHavePrefix pat []
  | d :: rest => charsHavePrefix pat (d :: rest) || charsContain pat rest

/-- JavaScript `String.prototype.includes`: contiguous-substring test. -/
def jsIncludes (s pat : String) : Bool :=
  charsContain pat.data s.data

/-- `AIProcessor.extractActionsFromResponse`: keyword triggers over the
lowercased reply content, each pushing one canned action. -/
def extractActionsFromResponse (content : String) (contextUrl : Option String)
    (now : Nat) : List TaskAction :=
  let lower := content.toLower
  let url := jsOrString contextUrl ""
  (if jsIncludes lower "create" && jsIncludes lower "post" then
    [{ id := "action-" ++ toString now, type := "wordpress_create_post"
       label := "Create WordPress Post", parameters := [("content", url)] }]
   else []) ++
  (if jsIncludes lower "analyze" || jsIncludes lower "extract" then
    [{ id := "action-" ++ toString now ++ "-analyze", type := "analyze_page"
       label := "Analyze Current Page", parameters := [("url", url)] }]
   else []) ++
  (if jsIncludes lower "scrape" || jsIncludes lower "data" then
    [{ id := "action-" ++ toString now ++ "-scrape", type := "scrape_data"
       label := "Extract Page Data", parameters := [("url", url)] }]
   else []) ++
  (if jsIncludes lower "login" || jsIncludes lower "sign in" || jsIncludes lower "log in" then
    [{ id := "action-" ++ toString now ++ "-login", type := "login"
       label := "Login to Website", parameters := [("url", url)] }]
   else []) ++
  (if jsIncludes lower "fill" && (jsIncludes lower "form" || jsIncludes lower "field") then
    [{ id := "action-" ++ toString now ++ "-fill", type := "fill_form"
       label := "Fill Form", parameters := [("url", url)] }]
   else []) ++
  (if jsIncludes lower "click" || jsIncludes lower "button" then
    [{ id := "action-" ++ toString now ++ "-click", type := "click_element"
       label := "Click Element", parameters := [("url", url)] }]
   else [])

/-- Backend outcome for the chat prompt: a thrown error, or a reply whose
content may be null. -/
inductive ChatBackendResult where
  | failure
  | reply (content : Option String)
  deriving DecidableEq

/-- The apology substituted by `processChatMessage` when the backend call
throws. -/
def chatApology : String :=
  "I\x27m sorry, I\x27m having trouble processing your request right now. Please try again."

/-- `AIProcessor.processChatMessage`: on success an assistant message
with the reply content (`|| ""`) and extracted actions; on failure the
catch branch substitutes the apology message (and no actions field). -/
def processChatMessage (message : String) (contextUrl : Option String)
    (now : Nat) (backend : ChatBackendResult) : ChatMessage :=
  match backend with
  | ChatBackendResult.reply content =>
      let c := content.getD ""
      { id := "ai-" ++ toString now
        role := "assistant"
        content := c
        timestamp := now
        actions := some (extractActionsFromResponse c contextUrl now) }
  | ChatBackendResult.failure =>
      { id := "ai-" ++ toString now
        role := "assistant"
        content := chatApology
        timestamp := now
        actions := none }

/-! ## WordPress plugin action log (from `T2E_Agent::log_automation_action`) -/

/-- One entry of the WordPress automation log option. -/
structure WPLogEntry where
  action : String
  details : String
  timestamp : Nat
  userId : Nat
  ipAddress : String
  deriving DecidableEq, Repr

/-- `T2E_Agent::log_automation_action` acting on the stored option value:
`array_unshift` prepends the new entry, `array_slice($logs, 0, 1000)`
keeps only the first 1000 entries. -/
def log_automation_action (logs : List WPLogEntry) (entry : WPLogEntry) : List WPLogEntry :=
  (entry :: logs).take 1000

/-- The stored option after a sequence of `log_automation_action` calls
starting from the option's default (the empty array). -/
def wpRunLog (entries : List WPLogEntry) : List WPLogEntry :=
  entries.foldl (fun logs e => log_automation_action logs e) []

/-! ## Helper lemmas about the map embedding -/

lemma mapLookup_mem {α : Type} {m : List (String × α)} {k : String} {v : α}
    (h : mapLookup m k = some v) : (k, v) ∈ m := by
  induction m with
  | nil => simp [mapLookup] at h
  | cons p rest ih =>
      obtain ⟨k', v'⟩ := p
      by_cases hk : k' = k
      · subst hk
        simp [mapLookup] at h
        subst h
        exact List.mem_cons_self _ _
      · simp [mapLookup, hk] at h
        exact List.mem_cons_of_mem _ (ih h)

lemma mem_mapReplace {α : Type} {m : List (String × α)} {k : String} {v : α}
    {p : String × α} (h : p ∈ mapReplace m k v) : p = (k, v) ∨ p ∈ m := by
  induction m with
  | nil => simp [mapReplace] at h
  | cons q rest ih =>
      obtain ⟨k', v'⟩ := q
      simp only [mapReplace, List.mem_cons] at h
      rcases h with h | h
      · by_cases hk : k' = k
        · simp [hk] at h
          left
          exact h
        · simp [hk] at h
          right
          simp [h]
      · rcases ih h with h' | h'
        · exact Or.inl h'
        · exact Or.inr (List.mem_cons_of_mem _ h')

lemma mem_mapSet {α : Type} {m : List (String × α)} {k : String} {v : α}
    {p : String × α} (h : p ∈ mapSet m k v) : p = (k, v) ∨ p ∈ m := by
  unfold mapSet at h
  by_cases hc : mapContains m k
  · rw [if_pos hc] at h
    exact mem_mapReplace h
  · rw [if_neg hc] at h
    rcases List.mem_append.mp h with h' | h'
    · exact Or.inr h'
    · simp at h'
      exact Or.inl (by simp [h'])

lemma mapLookup_cons {α : Type} (k' : String) (v' : α) (rest : List (String × α))
    (key : String) :
    mapLookup ((k', v') :: rest) key = if k' = key then some v' else mapLookup rest key :=
  rfl

lemma mapReplace_cons {α : Type} (k' : String) (v' : α) (rest : List (String × α))
    (key : String) (val : α) :
    mapReplace ((k', v') :: rest) key val =
      (if k' = key then (key, val) else (k', v')) :: mapReplace rest key val :=
  rfl

lemma mapLookup_mapReplace_self {α : Type} {m : List (String × α)} {k : String} (v : α)
    (h : mapContains m k = true) : mapLookup (mapReplace m k v) k = some v := by
  induction m with
  | nil => simp [mapContains, mapLookup] at h
  | cons q rest ih =>
      obtain ⟨k', v'⟩ := q
      rw [mapReplace_cons]
      by_cases hk : k' = k
      · rw [if_pos hk, mapLookup_cons, if_pos rfl]
      · rw [if_neg hk, mapLookup_cons, if_neg hk]
        apply ih
        unfold mapContains at h ⊢
        rw [mapLookup_cons, if_neg hk] at h
        exact h

lemma mapLookup_append_right {α : Type} {m : List (String × α)} {k : String} (v : α)
    (h : mapLookup m k = none) : mapLookup (m ++ [(k, v)]) k = some v := by
  induction m with
  | nil => simp [mapLookup]
  | cons q rest ih =>
      obtain ⟨k', v'⟩ := q
      by_cases hk : k' = k
      · simp [mapLookup, hk] at h
      · simp only [mapLookup, hk, if_neg, if_false] at h
        simp only [List.cons_append, mapLookup, if_neg hk]
        exact ih h

lemma mapLookup_mapSet_self {α : Type} (m : List (String × α)) (k : String) (v : α) :
    mapLookup (mapSet m k v) k = some v := by
  unfold mapSet
  by_cases hc : mapContains m k
  · rw [if_pos hc]
    exact mapLookup_mapReplace_self v hc
  · rw [if_neg hc]
    apply mapLookup_append_right
    unfold mapContains at hc
    exact Option.not_isSome_iff_eq_none.mp (by simpa using hc)

/-! ## Helper lemmas about execution updates -/

lemma updateTaskExecution_found {s : MemStorage} {id : String} {e : TaskExecution}
    (u : TaskExecutionUpdate) (now : Nat)
    (h : mapLookup s.taskExecutions id = some e) :
    updateTaskExecution s id u now =
      (some (execMerge e u now),
       { s with taskExecutions := mapSet s.taskExecutions id (execMerge e u now) }) := by
  unfold updateTaskExecution
  rw [h]

lemma updateTaskExecution_missing {s : MemStorage} {id : String}
    (u : TaskExecutionUpdate) (now : Nat)
    (h : mapLookup s.taskExecutions id = none) :
    updateTaskExecution s id u now = (none, s) := by
  unfold updateTaskExecution
  rw [h]

/-- The background routine's sequential updates to one execution id act on
the looked-up record as a left fold of `execMerge`. -/
lemma applyExecUpdates_lookup (id : String) (now : Nat) :
    ∀ (us : List TaskExecutionUpdate) (s : MemStorage) (e : TaskExecution),
      mapLookup s.taskExecutions id = some e →
      mapLookup (applyExecUpdates s id us now).taskExecutions id =
        some (us.foldl (fun a u => execMerge a u now) e) := by
  intro us
  induction us with
  | nil => intro s e h; simpa [applyExecUpdates] using h
  | cons u rest ih =>
      intro s e h
      have hstep := updateTaskExecution_found u now h
      have hlook : mapLookup ((updateTaskExecution s id u now).2).taskExecutions id =
          some (execMerge e u now) := by
        rw [hstep]
        exact mapLookup_mapSet_self _ _ _
      have : applyExecUpdates s id (u :: rest) now =
          applyExecUpdates ((updateTaskExecution s id u now).2) id rest now := by
        simp [applyExecUpdates]
      rw [this, ih _ _ hlook]
      simp

/-- `execMerge` with a per-step update: progress and logs are overwritten,
all other fields (in particular status and `completedAt`) are unchanged. -/
lemma execMerge_stepUpdate (e : TaskExecution) (n i : Nat) (st : TaskStep) (now : Nat) :
    execMerge e (stepUpdate n i st) now =
      { e with progress := jsStepProgress n (i + 1)
               logs := ["Step " ++ toString (i + 1) ++ ": " ++ stepLabel st] } := by
  simp [execMerge, stepUpdate, applyExecUpdate]

/-- `execMerge` with the completion update: status completed, progress
100, success result, `completedAt` stamped; logs and the identifying
fields are unchanged. -/
lemma execMerge_completedUpdate (e : TaskExecution) (now : Nat) :
    execMerge e completedUpdate now =
      { e with status := ExecStatus.completed
               progress := 100
               result := some { success := true
                                message := some "Task completed successfully"
                                error := none }
               completedAt := some now } := by
  simp [execMerge, completedUpdate, applyExecUpdate]

/-- `execMerge` with the failure update: status failed, error result,
`completedAt` stamped; progress and logs are unchanged. -/
lemma execMerge_failedUpdate (e : TaskExecution) (err : String) (now : Nat) :
    execMerge e (failedUpdate err) now =
      { e with status := ExecStatus.failed
               result := some { success := false, message := none, error := some err }
               completedAt := some now } := by
  simp [execMerge, failedUpdate, applyExecUpdate]

/-! ## Helper lemmas about the stable descending sort -/

lemma insertDescBy_of_gt {α : Type} (key : α → Nat) {x : α} {acc : List α}
    (h : ∀ a ∈ acc, key a < key x) : insertDescBy key x acc = x :: acc := by
  cases acc with
  | nil => rfl
  | cons y ys =>
      unfold insertDescBy
      rw [if_neg]
      exact Nat.not_le_of_lt (h y (List.mem_cons_self _ _))

lemma foldl_insertDescBy_of_ascending {α : Type} (key : α → Nat) :
    ∀ (xs acc : List α),
      (∀ b ∈ xs, ∀ a ∈ acc, key a < key b) →
      List.Pairwise (fun a b => key a < key b) xs →
      xs.foldl (fun ac x => insertDescBy key x ac) acc = xs.reverse ++ acc := by
  intro xs
  induction xs with
  | nil => intro acc _ _; simp
  | cons y ys ih =>
      intro acc hgt hpair
      have h1 : insertDescBy key y acc = y :: acc :=
        insertDescBy_of_gt key (hgt y (List.mem_cons_self _ _))
      have h2 : ∀ b ∈ ys, ∀ a ∈ y :: acc, key a < key b := by
        intro b hb a ha
        rcases List.mem_cons.mp ha with ha' | ha'
        · subst ha'
          exact (List.pairwise_cons.mp hpair).1 b hb
        · exact hgt b (List.mem_cons_of_mem _ hb) a ha'
      have h3 := ih (y :: acc) h2 (List.pairwise_cons.mp hpair).2
      calc (y :: ys).foldl (fun ac x => insertDescBy key x ac) acc
        = ys.foldl (fun ac x => insertDescBy key x ac) (insertDescBy key y acc) := by
            simp
        _ = ys.foldl (fun ac x => insertDescBy key x ac) (y :: acc) := by rw [h1]
        _ = ys.reverse ++ (y :: acc) := h3
        _ = (y :: ys).reverse ++ acc := by simp

/-- A stable descending sort of a list whose keys strictly increase along
the list is exactly its reverse. -/
lemma sortDescBy_of_ascending {α : Type} (key : α → Nat) (l : List α)
    (h : List.Pairwise (fun a b => key a < key b) l) :
    sortDescBy key l = l.reverse := by
  unfold sortDescBy
  rw [foldl_insertDescBy_of_ascending key l [] (by intro b _ a ha; cases ha) h]
  simp

/-! ## Claim theorems -/

lemma wpRunLog_append (l : List WPLogEntry) (x : WPLogEntry) :
    wpRunLog (l ++ [x]) = log_automation_action (wpRunLog l) x := by
  simp [wpRunLog, List.foldl_append]

lemma wpRunLog_eq (entries : List WPLogEntry) :
    wpRunLog entries = entries.reverse.take 1000 := by
  induction entries using List.reverseRecOn with
  | nil => rfl
  | append_singleton l x ih =>
      rw [wpRunLog_append, ih]
      unfold log_automation_action
      rw [List.reverse_append]
      simp only [List.reverse_singleton, List.singleton_append]
      show (x :: List.take 1000 l.reverse).take (999 + 1) = (x :: l.reverse).take (999 + 1)
      rw [List.take_succ_cons, List.take_succ_cons, List.take_take]
      norm_num

/-- C7: the WordPress action log never retains more than 1000 entries:
each `log_automation_action` call prepends the new entry and truncates to
the first 1000 entries, so after any call sequence from the empty default
the stored list is exactly the 1000 most recent entries,
most-recent-first, with the oldest beyond the cap evicted. -/
theorem wp_log_cap_1000 (entries : List WPLogEntry) :
    (∀ logs entry, log_automation_action logs entry = (entry :: logs).take 1000) ∧
    (∀ logs entry, (log_automation_action logs entry).length ≤ 1000) ∧
    (wpRunLog entries).length ≤ 1000 ∧
    wpRunLog entries = entries.reverse.take 1000 := by
  refine ⟨fun _ _ => rfl, fun logs entry => List.length_take_le _ _, ?_, wpRunLog_eq entries⟩
  rw [wpRunLog_eq]
  exact List.length_take_le _ _

/-- C8 counterexample: the claim says a backend failure makes
`processVoiceCommand` return a command with an *empty* intent; in fact
the catch branch substitutes the intent `"help"`, which is not empty. -/
theorem voice_failure_empty_intent_cex :
    (processVoiceCommand "open the dashboard" VoiceBackendResult.failure).intent = "help" ∧
    (processVoiceCommand "open the dashboard" VoiceBackendResult.failure).intent ≠ "" ∧
    (processVoiceCommand "open the dashboard" VoiceBackendResult.failure).confidence = 0 := by
  refine ⟨rfl, ?_, rfl⟩
  decide

/-- C8 (amended): when the hosted completion backend fails (throws, times
out, or returns content that `JSON.parse` rejects), `processVoiceCommand`
returns a command with intent `"help"`, confidence 0 and empty
parameters, and `processChatMessage` returns an assistant message whose
content is the apology text; both functions are total, so no failure is
propagated as an exception. -/
theorem ai_backend_failure_safe_defaults (text msg : String)
    (contextUrl : Option String) (now : Nat) :
    processVoiceCommand text VoiceBackendResult.failure =
      { text := text, intent := "help", confidence := 0, parameters := [] } ∧
    processVoiceCommand text VoiceBackendResult.malformed =
      { text := text, intent := "help", confidence := 0, parameters := [] } ∧
    (processChatMessage msg contextUrl now ChatBackendResult.failure).role = "assistant" ∧
    (processChatMessage msg contextUrl now ChatBackendResult.failure).content = chatApology ∧
    jsIncludes (processChatMessage msg contextUrl now ChatBackendResult.failure).content
      "sorry" = true := by
  refine ⟨rfl, rfl, rfl, rfl, ?_⟩
  show jsIncludes chatApology "sorry" = true
  decide

/-- C4: updating a non-existent id returns an absent result and leaves
the store entirely unchanged: no record is created (no upsert) and no
existing record is modified, for `updateTaskExecution` and
`updateBrowserProfile` alike. -/
theorem update_missing_id_no_upsert (s : MemStorage) (id : String)
    (u : TaskExecutionUpdate) (p : BrowserProfileUpdate) (now : Nat)
    (h1 : mapLookup s.taskExecutions id = none)
    (h2 : mapLookup s.browserProfiles id = none) :
    updateTaskExecution s id u now = (none, s) ∧
    updateBrowserProfile s id p = (none, s) := by
  constructor
  · exact updateTaskExecution_missing u now h1
  · unfold updateBrowserProfile
    rw [h2]

/-- Witness for C4 at a concrete store and id. -/
theorem update_missing_id_no_upsert_witness :
    (mapLookup defaultStorage.taskExecutions "missing-id" = none) ∧
    (mapLookup defaultStorage.browserProfiles "missing-id" = none) ∧
    updateTaskExecution defaultStorage "missing-id" {} 5 = (none, defaultStorage) ∧
    updateBrowserProfile defaultStorage "missing-id" {} = (none, defaultStorage) := by
  refine ⟨by decide, by decide, ?_, ?_⟩
  · exact (update_missing_id_no_upsert defaultStorage "missing-id" {} {} 5
      (by decide) (by decide)).1
  · exact (update_missing_id_no_upsert defaultStorage "missing-id" {} {} 5
      (by decide) (by decide)).2

/-- C3: every per-step update issued by the background routine replaces
the execution's logs with the single entry
`"Step i+1: <description or type>"`: after the update the stored record's
logs hold exactly one entry, not the accumulated history. -/
theorem step_update_replaces_logs (s : MemStorage) (id : String) (e : TaskExecution)
    (n i : Nat) (st : TaskStep) (now : Nat)
    (he : mapLookup s.taskExecutions id = some e) :
    ∃ e', updateTaskExecution s id (stepUpdate n i st) now =
        (some e', { s with taskExecutions := mapSet s.taskExecutions id e' }) ∧
      e'.logs = ["Step " ++ toString (i + 1) ++ ": " ++ stepLabel st] ∧
      e'.logs.length = 1 ∧
      mapLookup ((updateTaskExecution s id (stepUpdate n i st) now).2).taskExecutions id
        = some e' := by
  refine ⟨execMerge e (stepUpdate n i st) now, updateTaskExecution_found _ _ he, ?_, ?_, ?_⟩
  · rw [execMerge_stepUpdate]
  · rw [execMerge_stepUpdate]
    rfl
  · rw [updateTaskExecution_found _ _ he]
    exact mapLookup_mapSet_self _ _ _

/-- The insert payload the execute route passes for the
`"Data Extraction"` template. -/
def sampleInsert : InsertTaskExecution :=
  { templateId := "scraping-template"
    userId := "default-user"
    status := ExecStatus.running
    progress := 0
    logs := []
    result := none }

/-- A store holding one freshly created running execution. -/
def sampleStorage : MemStorage :=
  (createTaskExecution defaultStorage sampleInsert "exec-1" 3).2

/-- The freshly created execution record in `sampleStorage`. -/
def sampleExec : TaskExecution :=
  (createTaskExecution defaultStorage sampleInsert "exec-1" 3).1

/-- A first step of the `"Data Extraction"` template. -/
def sampleStep : TaskStep :=
  { type := "navigate_to_page", description := some "Navigate to target page" }

/-- Witness for C3 at a concrete store, execution and step. -/
theorem step_update_replaces_logs_witness :
    (mapLookup sampleStorage.taskExecutions "exec-1" = some sampleExec) ∧
    ∃ e', updateTaskExecution sampleStorage "exec-1" (stepUpdate 3 0 sampleStep) 4 =
        (some e',
         { sampleStorage with
             taskExecutions := mapSet sampleStorage.taskExecutions "exec-1" e' }) ∧
      e'.logs = ["Step " ++ toString (0 + 1) ++ ": " ++ stepLabel sampleStep] ∧
      e'.logs.length = 1 ∧
      mapLookup ((updateTaskExecution sampleStorage "exec-1"
        (stepUpdate 3 0 sampleStep) 4).2).taskExecutions "exec-1" = some e' := by
  refine ⟨by decide, ?_⟩
  exact step_update_replaces_logs sampleStorage "exec-1" sampleExec 3 0 sampleStep 4 (by decide)

/-- A step of the kind the seeded templates use. -/
def extractStep : TaskStep :=
  { type := "extract_data", description := some "Extract specified data" }

/-- A 40-step template, the scale at which the double evaluation of
(i/n)·100 first leaves the exact rounding (step 23 of 40). -/
def fortyStepTemplate : TaskTemplate :=
  { id := "forty-step-template"
    userId := "default-user"
    name := "Forty Steps"
    description := "A template with forty identical steps"
    category := "general"
    steps := some (List.replicate 40 extractStep)
    templateVariables := ""
    isPublic := false
    createdAt := 0 }

lemma stepProgressValues_eq (t : TaskTemplate) :
    stepProgressValues t =
      (List.range (templateSteps t).length).map
        (fun i => jsStepProgress (templateSteps t).length (i + 1)) := by
  unfold stepProgressValues backgroundStepUpdates
  rw [List.filterMap_map]
  have h1 : ∀ (l : List (Nat × TaskStep)) (n : Nat),
      l.filterMap ((fun u : TaskExecutionUpdate => u.progress) ∘
        (fun p : Nat × TaskStep => stepUpdate n p.1 p.2)) =
      l.map (fun p => jsStepProgress n (p.1 + 1)) := by
    intro l n
    induction l with
    | nil => rfl
    | cons p rest ih =>
        have hcons : List.filterMap ((fun u : TaskExecutionUpdate => u.progress) ∘
            (fun q : Nat × TaskStep => stepUpdate n q.1 q.2)) (p :: rest) =
            jsStepProgress n (p.1 + 1) ::
              List.filterMap ((fun u : TaskExecutionUpdate => u.progress) ∘
                (fun q : Nat × TaskStep => stepUpdate n q.1 q.2)) rest := rfl
        rw [hcons, ih, List.map_cons]
  rw [h1]
  have h2 : ((templateSteps t).enum).map
      (fun p : Nat × TaskStep => jsStepProgress (templateSteps t).length (p.1 + 1)) =
      (((templateSteps t).enum).map Prod.fst).map
        (fun i => jsStepProgress (templateSteps t).length (i + 1)) := by
    rw [List.map_map]
    rfl
  rw [h2, List.enum_map_fst]

lemma stepProgressValues_length (t : TaskTemplate) :
    (stepProgressValues t).length = (templateSteps t).length := by
  rw [stepProgressValues_eq]
  simp

lemma stepProgressValues_chain (t : TaskTemplate)
    (hn : 1 ≤ (templateSteps t).length)
    (hn32 : (templateSteps t).length < 2 ^ 32) :
    List.Chain' (fun a b => a ≤ b) (stepProgressValues t) := by
  rw [stepProgressValues_eq]
  rw [List.chain'_map]
  obtain ⟨m, hm⟩ : ∃ m, (templateSteps t).length = m + 1 :=
    ⟨(templateSteps t).length - 1, by omega⟩
  rw [hm]
  rw [List.chain'_range_succ]
  intro i hi
  exact jsStepProgress_mono (by omega) (by omega) (by omega) (by omega) (by omega)

lemma runBackgroundSuccess_lookup (t : TaskTemplate) (s : MemStorage) (id : String)
    (e : TaskExecution) (now : Nat) (he : mapLookup s.taskExecutions id = some e) :
    mapLookup (runBackgroundSuccess s id t now).taskExecutions id =
      some (execMerge
        ((backgroundStepUpdates t).foldl (fun a u => execMerge a u now) e)
        completedUpdate now) := by
  unfold runBackgroundSuccess backgroundRunUpdates
  rw [applyExecUpdates_lookup id now _ s e he, List.foldl_append]
  simp

/-- C1 counterexample: the claim asserts the i-th per-step update carries
the exact rounding round(i·100/n), but the program computes
`Math.round(((i + 1) / totalSteps) * 100)` in IEEE doubles.  For a
40-step template at step 23 the double evaluation of (23/40)·100 is
57.49999999999999289…, so the loop writes 57, while the claim's
round(23·100/40) = round(57.5) = 58. -/
theorem successful_run_progress_cex :
    (templateSteps fortyStepTemplate).length = 40 ∧
    (stepProgressValues fortyStepTemplate)[22]? = some (jsStepProgress 40 23) ∧
    jsStepProgress 40 23 = 57 ∧
    specRoundHalfUp (23 * 100) 40 = 58 ∧
    (stepProgressValues fortyStepTemplate)[22]? ≠
      some (specRoundHalfUp (23 * 100) 40) :=
  ⟨by decide, by decide, by decide, by decide, by decide⟩

/-- C1 (amended): for a template with `n ≥ 1` steps (a JS array length
is below 2^32), an error-free run of `executeTaskInBackground` issues
exactly `n` per-step progress updates, the `i`-th (1-based) carrying the
IEEE-double evaluation `Math.round(((i / n) · 100))` (`jsStepProgress`),
which can differ from the exact rounding round(i·100/n); these values
are non-decreasing and the `n`-th is 100; and afterwards the stored
record is completed with progress 100, a success result, and
`completedAt` stamped. -/
theorem successful_run_progress (t : TaskTemplate) (s : MemStorage) (id : String)
    (e : TaskExecution) (now : Nat)
    (hn : 1 ≤ (templateSteps t).length)
    (hn32 : (templateSteps t).length < 2 ^ 32)
    (he : mapLookup s.taskExecutions id = some e) :
    (stepProgressValues t).length = (templateSteps t).length ∧
    stepProgressValues t =
      (List.range (templateSteps t).length).map
        (fun i => jsStepProgress (templateSteps t).length (i + 1)) ∧
    List.Chain' (fun a b => a ≤ b) (stepProgressValues t) ∧
    jsStepProgress (templateSteps t).length (templateSteps t).length = 100 ∧
    ∃ e', mapLookup (runBackgroundSuccess s id t now).taskExecutions id = some e' ∧
      e'.status = ExecStatus.completed ∧
      e'.progress = 100 ∧
      e'.completedAt = some now ∧
      e'.result = some { success := true
                         message := some "Task completed successfully"
                         error := none } := by
  refine ⟨stepProgressValues_length t, stepProgressValues_eq t,
    stepProgressValues_chain t hn hn32, jsStepProgress_last hn, ?_⟩
  refine ⟨_, runBackgroundSuccess_lookup t s id e now he, ?_, ?_, ?_, ?_⟩
  all_goals rw [execMerge_completedUpdate]

/-- Witness for the amended C1: the seeded 3-step `"Data Extraction"`
template yields the progress sequence 33, 67, 100 and a completed final
record. -/
theorem successful_run_progress_witness :
    stepProgressValues scrapingTemplate = [33, 67, 100] ∧
    (1 ≤ (templateSteps scrapingTemplate).length) ∧
    ((templateSteps scrapingTemplate).length < 2 ^ 32) ∧
    ((stepProgressValues scrapingTemplate).length =
        (templateSteps scrapingTemplate).length ∧
      stepProgressValues scrapingTemplate =
        (List.range (templateSteps scrapingTemplate).length).map
          (fun i => jsStepProgress (templateSteps scrapingTemplate).length (i + 1)) ∧
      List.Chain' (fun a b => a ≤ b) (stepProgressValues scrapingTemplate) ∧
      jsStepProgress (templateSteps scrapingTemplate).length
        (templateSteps scrapingTemplate).length = 100 ∧
      ∃ e', mapLookup (runBackgroundSuccess sampleStorage "exec-1"
          scrapingTemplate 9).taskExecutions "exec-1" = some e' ∧
        e'.status = ExecStatus.completed ∧
        e'.progress = 100 ∧
        e'.completedAt = some 9 ∧
        e'.result = some { success := true
                           message := some "Task completed successfully"
                           error := none }) :=
  ⟨by decide, by decide, by decide,
   successful_run_progress scrapingTemplate sampleStorage "exec-1" sampleExec 9
     (by decide) (by decide) (by decide)⟩

/-- C10: for a template whose steps value is empty or not an array, the
background routine issues no per-step update at all (so no per-step
progress write, and `Math.round` is never evaluated — no division by
zero for `n = 0`) and immediately marks the execution completed with
progress 100, a success result, `completedAt` stamped and the logs field
still the empty list it was created with. -/
theorem empty_steps_immediate_complete (t : TaskTemplate) (s : MemStorage)
    (id : String) (e : TaskExecution) (now : Nat)
    (hsteps : templateSteps t = [])
    (he : mapLookup s.taskExecutions id = some e)
    (hlogs : e.logs = []) :
    backgroundStepUpdates t = [] ∧
    stepProgressValues t = [] ∧
    ∃ e', mapLookup (runBackgroundSuccess s id t now).taskExecutions id = some e' ∧
      e'.status = ExecStatus.completed ∧
      e'.progress = 100 ∧
      e'.completedAt = some now ∧
      e'.logs = [] ∧
      e'.result = some { success := true
                         message := some "Task completed successfully"
                         error := none } := by
  have hbs : backgroundStepUpdates t = [] := by
    unfold backgroundStepUpdates
    rw [hsteps]
    rfl
  have hfinal : mapLookup (runBackgroundSuccess s id t now).taskExecutions id =
      some (execMerge e completedUpdate now) := by
    rw [runBackgroundSuccess_lookup t s id e now he, hbs]
    rfl
  refine ⟨hbs, ?_, execMerge e completedUpdate now, hfinal, ?_, ?_, ?_, ?_, ?_⟩
  · unfold stepProgressValues
    rw [hbs]
    rfl
  · rw [execMerge_completedUpdate]
  · rw [execMerge_completedUpdate]
  · rw [execMerge_completedUpdate]
  · rw [execMerge_completedUpdate]
    exact hlogs
  · rw [execMerge_completedUpdate]

/-- A template whose `steps` JSON value is not an array, exercising the
`Array.isArray` guard. -/
def noStepsTemplate : TaskTemplate :=
  { id := "no-steps-template"
    userId := "default-user"
    name := "No Steps"
    description := "A template without a steps array"
    category := "general"
    steps := none
    templateVariables := ""
    isPublic := false
    createdAt := 0 }

/-- Witness for C10 at a concrete no-array template and fresh record. -/
theorem empty_steps_immediate_complete_witness :
    (templateSteps noStepsTemplate = []) ∧
    (sampleExec.logs = []) ∧
    (backgroundStepUpdates noStepsTemplate = [] ∧
      stepProgressValues noStepsTemplate = [] ∧
      ∃ e', mapLookup (runBackgroundSuccess sampleStorage "exec-1"
          noStepsTemplate 11).taskExecutions "exec-1" = some e' ∧
        e'.status = ExecStatus.completed ∧
        e'.progress = 100 ∧
        e'.completedAt = some 11 ∧
        e'.logs = [] ∧
        e'.result = some { success := true
                           message := some "Task completed successfully"
                           error := none }) :=
  ⟨by decide, by decide,
   empty_steps_immediate_complete noStepsTemplate sampleStorage "exec-1" sampleExec 11
     (by decide) (by decide) (by decide)⟩

/-- C5: `POST /api/tasks/execute` returns 400 on a missing (falsy)
templateId; 404 with an error body and an unchanged store (no execution
record created) when the templateId names no stored template; and on a
stored template it returns 200 with the freshly created execution record
(status running, progress 0, empty logs, null result), which is now in
the executions table. -/
theorem execute_route_statuses (s : MemStorage) (tid newId : String) (now : Nat) :
    postTasksExecute s { templateId := none } newId now =
      ((400, ApiBody.errorBody "Template ID required"), s) ∧
    (tid ≠ "" → getTaskTemplate s tid = none →
      postTasksExecute s { templateId := some tid } newId now =
        ((404, ApiBody.errorBody "Template not found"), s)) ∧
    (∀ tpl, tid ≠ "" → getTaskTemplate s tid = some tpl →
      ∃ e' s', postTasksExecute s { templateId := some tid } newId now =
          ((200, ApiBody.executionBody e'), s') ∧
        e'.status = ExecStatus.running ∧
        e'.progress = 0 ∧
        e'.logs = [] ∧
        e'.result = none ∧
        e'.completedAt = none ∧
        e'.templateId = tid ∧
        e'.id = newId ∧
        e'.userId = DEFAULT_USER_ID ∧
        mapLookup s'.taskExecutions newId = some e' ∧
        s'.taskTemplates = s.taskTemplates ∧
        s'.browserProfiles = s.browserProfiles ∧
        s'.actionLogs = s.actionLogs) := by
  refine ⟨rfl, ?_, ?_⟩
  · intro hne hnone
    simp only [postTasksExecute]
    rw [if_neg (by simp [jsTruthyString, hne]), Option.getD_some, hnone]
  · intro tpl hne hsome
    simp only [postTasksExecute]
    rw [if_neg (by simp [jsTruthyString, hne]), Option.getD_some, hsome]
    refine ⟨(createTaskExecution s
        { templateId := tid
          userId := DEFAULT_USER_ID
          status := ExecStatus.running
          progress := 0
          logs := []
          result := none } newId now).1,
      (createTaskExecution s
        { templateId := tid
          userId := DEFAULT_USER_ID
          status := ExecStatus.running
          progress := 0
          logs := []
          result := none } newId now).2,
      rfl, rfl, rfl, rfl, rfl, rfl, rfl, rfl, rfl, ?_, rfl, rfl, rfl⟩
    exact mapLookup_mapSet_self _ _ _

/-- Witness for C5 on the seeded store: 400 for a missing templateId, 404
for an unknown one, 200 with a fresh running record for
`"scraping-template"`. -/
theorem execute_route_statuses_witness :
    (postTasksExecute defaultStorage { templateId := none } "exec-9" 6 =
      ((400, ApiBody.errorBody "Template ID required"), defaultStorage)) ∧
    (postTasksExecute defaultStorage { templateId := some "no-such-template" } "exec-9" 6 =
      ((404, ApiBody.errorBody "Template not found"), defaultStorage)) ∧
    (∃ e' s', postTasksExecute defaultStorage
        { templateId := some "scraping-template" } "exec-9" 6 =
          ((200, ApiBody.executionBody e'), s') ∧
      e'.status = ExecStatus.running ∧
      e'.progress = 0 ∧
      e'.logs = [] ∧
      e'.result = none ∧
      e'.completedAt = none ∧
      e'.templateId = "scraping-template" ∧
      e'.id = "exec-9" ∧
      e'.userId = DEFAULT_USER_ID ∧
      mapLookup s'.taskExecutions "exec-9" = some e' ∧
      s'.taskTemplates = defaultStorage.taskTemplates ∧
      s'.browserProfiles = defaultStorage.browserProfiles ∧
      s'.actionLogs = defaultStorage.actionLogs) := by
  have h400 := (execute_route_statuses defaultStorage "no-such-template" "exec-9" 6).1
  have h404 := (execute_route_statuses defaultStorage "no-such-template" "exec-9" 6).2.1
    (by decide) (by decide)
  have h200 := (execute_route_statuses defaultStorage "scraping-template" "exec-9" 6).2.2
    scrapingTemplate (by decide) (by decide)
  exact ⟨h400, h404, h200⟩

/-- C6: `getActionLogs(userId, N)` returns at most `N` entries, and when
the user's entries carry strictly increasing timestamps along append
order (as sequential appends with an advancing clock produce), it
returns exactly the most recently appended entries, most-recent-first
(descending timestamp = reverse append order). -/
theorem action_logs_limit_and_recency (s : MemStorage) (userId : String) (N : Nat)
    (hmono : List.Pairwise (fun a b => a.timestamp < b.timestamp)
      (userLogsInOrder s userId)) :
    (getActionLogs s userId N).length ≤ N ∧
    getActionLogs s userId N = (userLogsInOrder s userId).reverse.take N := by
  have hsort : sortDescBy (fun l => l.timestamp) (userLogsInOrder s userId) =
      (userLogsInOrder s userId).reverse :=
    sortDescBy_of_ascending _ _ hmono
  constructor
  · unfold getActionLogs
    exact List.length_take_le _ _
  · unfold getActionLogs
    rw [hsort]

/-- A store with two action logs appended for the default user at
timestamps 1 and 2. -/
def logStorage : MemStorage :=
  (addActionLog
    (addActionLog defaultStorage
      { userId := some "default-user", action := "wordpress_create_post"
        details := "post-1", url := none } "log-1" 1).2
    { userId := some "default-user", action := "wordpress_create_post"
      details := "post-2", url := none } "log-2" 2).2

/-- Witness for C6: on the two appended logs, `getActionLogs` with limit
1 returns just the most recent entry. -/
theorem action_logs_limit_and_recency_witness :
    List.Pairwise (fun a b => a.timestamp < b.timestamp)
      (userLogsInOrder logStorage "default-user") ∧
    ((getActionLogs logStorage "default-user" 1).length ≤ 1 ∧
      getActionLogs logStorage "default-user" 1 =
        (userLogsInOrder logStorage "default-user").reverse.take 1) :=
  ⟨by decide, action_logs_limit_and_recency logStorage "default-user" 1 (by decide)⟩

/-! ## Invariants of reachable storage states -/

/-- The C2 invariant on a single execution record: `completedAt` is
non-null exactly when the status is completed or failed. -/
def ExecCompletedAtInv (e : TaskExecution) : Prop :=
  e.completedAt.isSome = true ↔
    (e.status = ExecStatus.completed ∨ e.status = ExecStatus.failed)

lemma updateTaskExecution_preserves {P : TaskExecution → Prop} (s : MemStorage)
    (id : String) (u : TaskExecutionUpdate) (now : Nat)
    (hs : ∀ p ∈ s.taskExecutions, P p.2)
    (hu : ∀ e, P e → P (execMerge e u now)) :
    ∀ p ∈ ((updateTaskExecution s id u now).2).taskExecutions, P p.2 := by
  intro p hp
  cases hlook : mapLookup s.taskExecutions id with
  | none =>
      rw [updateTaskExecution_missing u now hlook] at hp
      exact hs p hp
  | some e =>
      rw [updateTaskExecution_found u now hlook] at hp
      rcases mem_mapSet hp with h' | h'
      · subst h'
        exact hu e (hs _ (mapLookup_mem hlook))
      · exact hs p h'

lemma postTasksExecute_preserves {P : TaskExecution → Prop} (s : MemStorage)
    (body : ExecuteRequestBody) (newId : String) (now : Nat)
    (hs : ∀ p ∈ s.taskExecutions, P p.2)
    (hnew : ∀ tid, P { id := newId, templateId := tid, userId := DEFAULT_USER_ID
                       status := ExecStatus.running, progress := 0, logs := []
                       result := none, startedAt := now, completedAt := none }) :
    ∀ p ∈ ((postTasksExecute s body newId now).2).taskExecutions, P p.2 := by
  intro p hp
  simp only [postTasksExecute] at hp
  by_cases hb : jsTruthyString body.templateId = false
  · rw [if_pos hb] at hp
    exact hs p hp
  · rw [if_neg hb] at hp
    cases hT : getTaskTemplate s (body.templateId.getD "") with
    | none =>
        rw [hT] at hp
        exact hs p hp
    | some tpl =>
        rw [hT] at hp
        rcases mem_mapSet hp with h' | h'
        · subst h'
          exact hnew _
        · exact hs p h'

/-- C2: in every reachable storage state, every execution record in the
executions table has `completedAt` non-null exactly when its status is
completed or failed (`completedAt` stays null while running). -/
theorem reachable_completedAt_iff_terminal (s : MemStorage) (h : Reachable s) :
    ∀ p ∈ s.taskExecutions, ExecCompletedAtInv p.2 := by
  induction h with
  | init =>
      intro p hp
      simp [defaultStorage] at hp
  | step s s' _ hstep ih =>
      cases hstep with
      | execute body newId now =>
          refine postTasksExecute_preserves s body newId now ih ?_
          intro tid
          unfold ExecCompletedAtInv
          simp
      | stepProgress id n i st now =>
          refine updateTaskExecution_preserves s id _ now ih ?_
          intro e he
          unfold ExecCompletedAtInv at he ⊢
          rw [execMerge_stepUpdate]
          exact he
      | complete id now =>
          refine updateTaskExecution_preserves s id _ now ih ?_
          intro e _
          unfold ExecCompletedAtInv
          rw [execMerge_completedUpdate]
          simp
      | fail id err now =>
          refine updateTaskExecution_preserves s id _ now ih ?_
          intro e _
          unfold ExecCompletedAtInv
          rw [execMerge_failedUpdate]
          simp

/-- The reachable store holding one freshly created execution for the
seeded `"Data Extraction"` template. -/
def reachedStore1 : MemStorage :=
  (postTasksExecute defaultStorage { templateId := some "scraping-template" }
    "exec-1" 3).2

/-- The running record stored in `reachedStore1`. -/
def reachedExec1 : TaskExecution :=
  { id := "exec-1"
    templateId := "scraping-template"
    userId := "default-user"
    status := ExecStatus.running
    progress := 0
    logs := []
    result := none
    startedAt := 3
    completedAt := none }

/-- Witness for C2 at a concrete reachable state (one freshly created
execution for the seeded `"Data Extraction"` template). -/
theorem reachable_completedAt_iff_terminal_witness :
    ExecCompletedAtInv reachedExec1 :=
  reachable_completedAt_iff_terminal reachedStore1
    (Reachable.step _ _ Reachable.init
      (ServerStep.execute defaultStorage { templateId := some "scraping-template" }
        "exec-1" 3))
    ("exec-1", reachedExec1) (by decide)

/-- C9: in every reachable storage state, no execution record has status
cancelled: records are created running, and the only update shapes any
code path issues move a record to completed or failed. -/
theorem reachable_no_cancelled (s : MemStorage) (h : Reachable s) :
    ∀ p ∈ s.taskExecutions, p.2.status ≠ ExecStatus.cancelled := by
  induction h with
  | init =>
      intro p hp
      simp [defaultStorage] at hp
  | step s s' _ hstep ih =>
      cases hstep with
      | execute body newId now =>
          refine postTasksExecute_preserves
            (P := fun e => e.status ≠ ExecStatus.cancelled) s body newId now ih ?_
          intro tid
          simp
      | stepProgress id n i st now =>
          refine updateTaskExecution_preserves
            (P := fun e => e.status ≠ ExecStatus.cancelled) s id _ now ih ?_
          intro e he
          rw [execMerge_stepUpdate]
          exact he
      | complete id now =>
          refine updateTaskExecution_preserves
            (P := fun e => e.status ≠ ExecStatus.cancelled) s id _ now ih ?_
          intro e _
          rw [execMerge_completedUpdate]
          simp
      | fail id err now =>
          refine updateTaskExecution_preserves
            (P := fun e => e.status ≠ ExecStatus.cancelled) s id _ now ih ?_
          intro e _
          rw [execMerge_failedUpdate]
          simp

/-- A reachable store in which an execution was created for the seeded
WordPress template and then completed. -/
def reachedStore2 : MemStorage :=
  (updateTaskExecution
    (postTasksExecute defaultStorage { templateId := some "wordpress-template" }
      "exec-2" 4).2 "exec-2" completedUpdate 5).2

/-- The completed record stored in `reachedStore2`. -/
def reachedExec2 : TaskExecution :=
  { id := "exec-2"
    templateId := "wordpress-template"
    userId := "default-user"
    status := ExecStatus.completed
    progress := 100
    logs := []
    result := some { success := true
                     message := some "Task completed successfully"
                     error := none }
    startedAt := 4
    completedAt := some 5 }

/-- Witness for C9 at a concrete reachable state (an execution created
for the seeded WordPress template and then completed). -/
theorem reachable_no_cancelled_witness :
    reachedExec2.status ≠ ExecStatus.cancelled :=
  reachable_no_cancelled reachedStore2
    (Reachable.step _ _
      (Reachable.step _ _ Reachable.init
        (ServerStep.execute defaultStorage { templateId := some "wordpress-template" }
          "exec-2" 4))
      (ServerStep.complete _ "exec-2" 5))
    ("exec-2", reachedExec2) (by decide)
